import Mathlib

/-!
Shallow embedding of the chess rules engine (chess-labs/chessboard).

Coordinates follow the source: a `Position` is a `(col, row)` pair with
`col = 0..7` for files a..h and `row = 0` for rank 8 down to `row = 7` for
rank 1.  A board is a row-major list of lists of optional pieces; JavaScript
`undefined`/out-of-range reads are modelled by total accessors returning
`none`, and the optional `hasMoved` flag (truthy checks only in the source)
is modelled as a `Bool` with `false` for an absent flag.  `cloneBoard` is the
identity because the embedding is pure.  Fallible FEN decoding is modelled
with `Except String`.
-/

set_option maxRecDepth 8000

namespace Chessboard

/-- Piece kinds, from `types.ts` `PieceType`. -/
inductive PieceType where
  | pawn
  | rook
  | knight
  | bishop
  | queen
  | king
deriving DecidableEq, Repr

/-- Piece colors, from `types.ts` `Color`. -/
inductive Color where
  | white
  | black
deriving DecidableEq, Repr

/-- `color === WHITE ? BLACK : WHITE`, the turn/opponent flip used throughout. -/
def oppositeColor : Color → Color
  | .white => .black
  | .black => .white

/-- A square, from `types.ts` `Position` (`col`, `row`, each nominally 0..7;
out-of-range values occur as rejected inputs, hence `Int`). -/
structure Position where
  col : Int
  row : Int
deriving DecidableEq, Repr

/-- A piece, from `types.ts` `Piece`; the optional `hasMoved` flag is a `Bool`
(`false` when absent). -/
structure Piece where
  type : PieceType
  color : Color
  hasMoved : Bool
deriving DecidableEq, Repr

/-- Special move tags, from `types.ts` `SpecialMove`. -/
inductive SpecialMove where
  | castling
  | enPassant
  | promotion
  | twoSquareAdvance
deriving DecidableEq, Repr

/-- A candidate move, from `types.ts` `Move`; optional fields are `Option`s and
the optional `capture` flag is a `Bool` (`false` when absent). -/
structure Move where
  fromPos : Position
  toPos : Position
  capture : Bool := false
  special : Option SpecialMove := none
  capturedPiecePosition : Option Position := none
deriving DecidableEq, Repr

/-- A move-history entry, from the `moveHistory` element type in `types.ts`. -/
structure HistoryEntry where
  fromPos : Position
  toPos : Position
  piece : Piece
  captured : Option Piece := none
  special : Option SpecialMove := none
  promotedTo : Option PieceType := none
deriving DecidableEq, Repr

/-- An 8x8 board, from `types.ts` `Board`: row-major, `none` = empty square. -/
abbrev Board := List (List (Option Piece))

/-- The full game state, from `types.ts` `GameState`. -/
structure GameState where
  board : Board
  currentTurn : Color
  moveHistory : List HistoryEntry
  isCheck : Bool
  isCheckmate : Bool
  isStalemate : Bool
deriving DecidableEq, Repr

/-- Raw row-major board read `board[row][col]`; like the JavaScript indexing it
yields `none` (undefined) outside the stored lists. -/
def boardGetRC (b : Board) (row col : Nat) : Option Piece :=
  (((b.get? row).getD []).get? col).getD none

/-- Raw row-major board write `board[row][col] = v`; a no-op outside the stored
lists (the source only writes in-range). -/
def boardSetRC (b : Board) (row col : Nat) (v : Option Piece) : Board :=
  b.set row (((b.get? row).getD []).set col v)

/-- `isValidPosition` from `board.ts`: both coordinates in `[0, 8)`. -/
def isValidPosition (p : Position) : Bool :=
  0 ≤ p.col && p.col < 8 && 0 ≤ p.row && p.row < 8

/-- `getPieceAt` from `board.ts`: `none` for invalid positions, else
`board[row][col]`. -/
def getPieceAt (p : Position) (b : Board) : Option Piece :=
  if isValidPosition p then boardGetRC b p.row.toNat p.col.toNat else none

/-- `placePiece` from `board.ts` (the board after the write; the source's
boolean success result is not needed by the verified claims). -/
def placePiece (b : Board) (p : Position) (piece : Piece) : Board :=
  if isValidPosition p then boardSetRC b p.row.toNat p.col.toNat (some piece) else b

/-- `clearPosition` from `board.ts` (the board after the write). -/
def clearPosition (b : Board) (p : Position) : Board :=
  if isValidPosition p then boardSetRC b p.row.toNat p.col.toNat none else b

/-- `cloneBoard` from `board.ts`: a deep copy, which in a pure embedding is the
identity. -/
def cloneBoard (b : Board) : Board := b

/-- The squares strictly between `fromP` and `toP` along the straight line from
`fromP` to `toP`, in walk order: the squares visited by the `while` loop of
`isPathClear` in `board.ts`.  All call sites in the source pass straight
(horizontal, vertical, or diagonal) segments. -/
def pathBetween (fromP toP : Position) : List Position :=
  let deltaCol := (toP.col - fromP.col).sign
  let deltaRow := (toP.row - fromP.row).sign
  let steps := max (toP.col - fromP.col).natAbs (toP.row - fromP.row).natAbs
  (List.range (steps - 1)).map fun k =>
    ⟨fromP.col + deltaCol * ((k : Int) + 1), fromP.row + deltaRow * ((k : Int) + 1)⟩

/-- `isPathClear` from `board.ts`: every square strictly between the two
endpoints is empty. -/
def isPathClear (fromP toP : Position) (b : Board) : Bool :=
  (pathBetween fromP toP).all fun p => (boardGetRC b p.row.toNat p.col.toNat).isNone

/-- `initBoard` from `board.ts`: the standard starting layout (pieces are
created without a `hasMoved` flag, i.e. `hasMoved = false`). -/
def initBoard : Board :=
  let mk (t : PieceType) (c : Color) : Option Piece := some ⟨t, c, false⟩
  let backRank (c : Color) : List (Option Piece) :=
    [mk .rook c, mk .knight c, mk .bishop c, mk .queen c,
     mk .king c, mk .bishop c, mk .knight c, mk .rook c]
  let pawnRank (c : Color) : List (Option Piece) := List.replicate 8 (mk .pawn c)
  let emptyRank : List (Option Piece) := List.replicate 8 none
  [backRank .black, pawnRank .black, emptyRank, emptyRank,
   emptyRank, emptyRank, pawnRank .white, backRank .white]

/-- `arePositionsEqual` from `helper.ts`. -/
def arePositionsEqual (a b : Position) : Bool :=
  a.col == b.col && a.row == b.row

/-- All board squares in the row-major scan order used by the `for` loops of
`game.ts` (`row` outer 0..7, `col` inner 0..7). -/
def allSquares : List Position :=
  (List.range 8).flatMap fun row => (List.range 8).map fun col =>
    ⟨(col : Int), (row : Int)⟩

/-- `canPieceAttackPosition` from `game.ts`: the non-recursive attack predicate
used by check detection. -/
def canPieceAttackPosition (piece : Piece) (piecePosition targetPosition : Position)
    (board : Board) : Bool :=
  let deltaRow := targetPosition.row - piecePosition.row
  let deltaCol := targetPosition.col - piecePosition.col
  let absDeltaRow := deltaRow.natAbs
  let absDeltaCol := deltaCol.natAbs
  match piece.type with
  | .pawn =>
    let direction : Int := if piece.color = .white then -1 else 1
    absDeltaCol == 1 && deltaRow == direction
  | .rook =>
    (deltaRow == 0 || deltaCol == 0) && isPathClear piecePosition targetPosition board
  | .knight =>
    (absDeltaRow == 2 && absDeltaCol == 1) || (absDeltaRow == 1 && absDeltaCol == 2)
  | .bishop =>
    absDeltaRow == absDeltaCol && isPathClear piecePosition targetPosition board
  | .queen =>
    (deltaRow == 0 || deltaCol == 0 || absDeltaRow == absDeltaCol) &&
      isPathClear piecePosition targetPosition board
  | .king =>
    absDeltaRow ≤ 1 && absDeltaCol ≤ 1

/-- `findKingPosition` from `game.ts`: first square (row-major) holding the
king of the given color. -/
def findKingPosition (gameState : GameState) (color : Color) : Option Position :=
  allSquares.find? fun p =>
    match boardGetRC gameState.board p.row.toNat p.col.toNat with
    | some piece => piece.type == PieceType.king && piece.color == color
    | none => false

/-- `isPlayerInCheck` from `game.ts`: some opposing piece attacks the king's
square (`false` when no king is found). -/
def isPlayerInCheck (gameState : GameState) (color : Color) : Bool :=
  match findKingPosition gameState color with
  | none => false
  | some kingPosition =>
    let opponentColor := oppositeColor color
    allSquares.any fun p =>
      match boardGetRC gameState.board p.row.toNat p.col.toNat with
      | some piece =>
        piece.color == opponentColor &&
          canPieceAttackPosition piece p kingPosition gameState.board
      | none => false

/-- `getForwardMoves` from `moves/pawn.ts`: one- and two-square pawn pushes,
tagging promotions and two-square advances. -/
def getForwardMoves (position : Position) (direction : Int) (startingRank promotionRank : Int)
    (board : Board) : List Move :=
  let oneSquareForward : Position := ⟨position.col, position.row + direction⟩
  if isValidPosition oneSquareForward && (getPieceAt oneSquareForward board).isNone then
    let first : Move :=
      if oneSquareForward.row = promotionRank then
        { fromPos := position, toPos := oneSquareForward, special := some .promotion }
      else
        { fromPos := position, toPos := oneSquareForward }
    let twoSquaresForward : Position := ⟨position.col, position.row + direction * 2⟩
    if position.row = startingRank &&
        (isValidPosition twoSquaresForward && (getPieceAt twoSquaresForward board).isNone) then
      [first, { fromPos := position, toPos := twoSquaresForward,
                special := some .twoSquareAdvance }]
    else
      [first]
  else
    []

/-- `getCaptureMoves` from `moves/pawn.ts`: the two diagonal pawn captures,
tagging promotions. -/
def getCaptureMoves (position : Position) (direction : Int) (color : Color)
    (promotionRank : Int) (board : Board) : List Move :=
  let capturePositions : List Position :=
    [⟨position.col - 1, position.row + direction⟩, ⟨position.col + 1, position.row + direction⟩]
  capturePositions.flatMap fun capturePos =>
    if isValidPosition capturePos then
      match getPieceAt capturePos board with
      | some targetPiece =>
        if targetPiece.color ≠ color then
          if capturePos.row = promotionRank then
            [{ fromPos := position, toPos := capturePos, capture := true,
               special := some .promotion }]
          else
            [{ fromPos := position, toPos := capturePos, capture := true }]
        else []
      | none => []
    else []

/-- `getEnPassantMoves` from `moves/pawn.ts`: the en-passant capture, available
only right after an adjacent opponent pawn's two-square advance. -/
def getEnPassantMoves (position : Position) (direction : Int) (color : Color)
    (gameState : GameState) : List Move :=
  match gameState.moveHistory.getLast? with
  | none => []
  | some lastMove =>
    if lastMove.piece.type = PieceType.pawn &&
        lastMove.piece.color ≠ color &&
        lastMove.special = some SpecialMove.twoSquareAdvance &&
        (lastMove.fromPos.row - lastMove.toPos.row).natAbs = 2 &&
        position.row = lastMove.toPos.row &&
        (lastMove.toPos.col - position.col).natAbs = 1 then
      [{ fromPos := position, toPos := ⟨lastMove.toPos.col, position.row + direction⟩,
         capture := true, special := some .enPassant,
         capturedPiecePosition := some lastMove.toPos }]
    else []

/-- `getPawnMoves` from `moves/pawn.ts`. -/
def getPawnMoves (position : Position) (gameState : GameState) : List Move :=
  match getPieceAt position gameState.board with
  | none => []
  | some piece =>
    if piece.type ≠ PieceType.pawn then []
    else
      let direction : Int := if piece.color = .white then -1 else 1
      let startingRank : Int := if piece.color = .white then 6 else 1
      let promotionRank : Int := if piece.color = .white then 0 else 7
      getForwardMoves position direction startingRank promotionRank gameState.board ++
        getCaptureMoves position direction piece.color promotionRank gameState.board ++
        getEnPassantMoves position direction piece.color gameState

/-- `getKnightMoves` from `moves/knight.ts`: the eight L-shaped offsets,
filtered to the board. -/
def getKnightMoves (position : Position) : List Position :=
  let possibleMoves : List Position :=
    [⟨position.col - 2, position.row - 1⟩, ⟨position.col - 2, position.row + 1⟩,
     ⟨position.col - 1, position.row - 2⟩, ⟨position.col - 1, position.row + 2⟩,
     ⟨position.col + 1, position.row - 2⟩, ⟨position.col + 1, position.row + 2⟩,
     ⟨position.col + 2, position.row - 1⟩, ⟨position.col + 2, position.row + 1⟩]
  possibleMoves.filter fun m => 0 ≤ m.col && m.col ≤ 7 && 0 ≤ m.row && m.row ≤ 7

/-- One sliding direction of `getBishopMoves` from `moves/bishop.ts`: step until
the edge, a friendly piece (stop), or a capture (emit, stop).  The source's
`while (true)` loop is bounded by the board, so fuel `8` is exact. -/
def bishopWalk (board : Board) (pieceColor : Color) (fromP : Position)
    (dCol dRow : Int) : Nat → Position → List Move
  | 0, _ => []
  | fuel + 1, cur =>
    let next : Position := ⟨cur.col + dCol, cur.row + dRow⟩
    if isValidPosition next then
      match getPieceAt next board with
      | some targetPiece =>
        if targetPiece.color = pieceColor then []
        else [{ fromPos := fromP, toPos := next, capture := true }]
      | none =>
        { fromPos := fromP, toPos := next, capture := false } ::
          bishopWalk board pieceColor fromP dCol dRow fuel next
    else []

/-- `getBishopMoves` from `moves/bishop.ts`. -/
def getBishopMoves (fromP : Position) (gameState : GameState) : List Move :=
  match getPieceAt fromP gameState.board with
  | none => []
  | some piece =>
    if piece.type ≠ PieceType.bishop then []
    else
      ([(1, 1), (1, -1), (-1, 1), (-1, -1)] : List (Int × Int)).flatMap fun d =>
        bishopWalk gameState.board piece.color fromP d.1 d.2 8 fromP

/-- `getMovesInDirection` from `moves/rook.ts`: slide in one direction, emitting
non-captures (with `capture := false`) for empty squares and one capture for
the first opposing piece.  Fuel `8` bounds the source's `while (true)` loop. -/
def getMovesInDirection (board : Board) (pieceColor : Color) (fromP : Position)
    (dCol dRow : Int) : Nat → Position → List Move
  | 0, _ => []
  | fuel + 1, cur =>
    let next : Position := ⟨cur.col + dCol, cur.row + dRow⟩
    if isValidPosition next then
      match getPieceAt next board with
      | some targetPiece =>
        if targetPiece.color ≠ pieceColor then
          [{ fromPos := fromP, toPos := next, capture := true }]
        else []
      | none =>
        { fromPos := fromP, toPos := next, capture := false } ::
          getMovesInDirection board pieceColor fromP dCol dRow fuel next
    else []

/-- `getRookMoves` from `moves/rook.ts`: the four orthogonal directions. -/
def getRookMoves (position : Position) (gameState : GameState) : List Move :=
  match getPieceAt position gameState.board with
  | none => []
  | some piece =>
    if piece.type ≠ PieceType.rook then []
    else
      ([(-1, 0), (1, 0), (0, -1), (0, 1)] : List (Int × Int)).flatMap fun d =>
        getMovesInDirection gameState.board piece.color position d.1 d.2 8 position

/-- `getQueenMoves` from `moves/queen.ts`: all eight directions. -/
def getQueenMoves (position : Position) (gameState : GameState) : List Move :=
  match getPieceAt position gameState.board with
  | none => []
  | some piece =>
    if piece.type ≠ PieceType.queen then []
    else
      ([(-1, 0), (1, 0), (0, -1), (0, 1), (-1, -1), (1, -1), (-1, 1), (1, 1)] :
          List (Int × Int)).flatMap fun d =>
        getMovesInDirection gameState.board piece.color position d.1 d.2 8 position

/-- `canCastle` from `moves/king.ts`: king and rook present and unmoved, same
color and row, clear path, king not in check, and the two squares the king
crosses (final square included) are safe when the king is placed there. -/
def canCastle (kingPosition rookPosition : Position) (gameState : GameState) : Bool :=
  match getPieceAt kingPosition gameState.board with
  | none => false
  | some king =>
    if king.type ≠ PieceType.king || king.hasMoved then false
    else match getPieceAt rookPosition gameState.board with
    | none => false
    | some rook =>
      if rook.type ≠ PieceType.rook || rook.hasMoved then false
      else if king.color ≠ rook.color then false
      else if kingPosition.row ≠ rookPosition.row then false
      else if isPlayerInCheck gameState king.color then false
      else if !isPathClear kingPosition rookPosition gameState.board then false
      else
        let direction : Int := if rookPosition.col > kingPosition.col then 1 else -1
        ([1, 2] : List Int).all fun i =>
          let checkPos : Position := ⟨kingPosition.col + direction * i, kingPosition.row⟩
          let clonedBoard := placePiece (clearPosition (cloneBoard gameState.board) kingPosition)
            checkPos king
          !isPlayerInCheck { gameState with board := clonedBoard } king.color

/-- `getKingMoves` from `moves/king.ts`: the eight adjacent squares minus
friendly-occupied ones, plus castling candidates for an unmoved king. -/
def getKingMoves (position : Position) (gameState : GameState) : List Move :=
  match getPieceAt position gameState.board with
  | none => []
  | some kingPiece =>
    if kingPiece.type ≠ PieceType.king then []
    else
      let directions : List (Int × Int) :=
        [(-1, -1), (0, -1), (1, -1), (-1, 0), (1, 0), (-1, 1), (0, 1), (1, 1)]
      let basic : List Move := directions.flatMap fun d =>
        let newCol := position.col + d.1
        let newRow := position.row + d.2
        if newCol < 0 || newCol > 7 || newRow < 0 || newRow > 7 then []
        else
          match boardGetRC gameState.board newRow.toNat newCol.toNat with
          | some targetSquare =>
            if targetSquare.color ≠ kingPiece.color then
              [{ fromPos := position, toPos := ⟨newCol, newRow⟩, capture := true }]
            else []
          | none => [{ fromPos := position, toPos := ⟨newCol, newRow⟩ }]
      let castles : List Move :=
        if kingPiece.hasMoved then []
        else
          (if canCastle position ⟨7, position.row⟩ gameState then
            [{ fromPos := position, toPos := ⟨position.col + 2, position.row⟩,
               special := some .castling }]
          else []) ++
          (if canCastle position ⟨0, position.row⟩ gameState then
            [{ fromPos := position, toPos := ⟨position.col - 2, position.row⟩,
               special := some .castling }]
          else [])
      basic ++ castles

/-- The simulate-then-test board of the legality filter in `moves/index.ts`:
remove the mover from `position`, remove any captured piece at `m.toPos` (or at
`m.capturedPiecePosition` for en passant), and place the mover, marked moved,
at `m.toPos`. -/
def simulateMoveBoard (board : Board) (position : Position) (movingPiece : Piece)
    (m : Move) : Board :=
  let clonedBoard := cloneBoard board
  let b1 := clearPosition clonedBoard position
  let b2 := match getPieceAt m.toPos b1 with
    | some _ => clearPosition b1 m.toPos
    | none => b1
  let b3 :=
    if m.special = some SpecialMove.enPassant then
      match m.capturedPiecePosition with
      | some q => clearPosition b2 q
      | none => b2
    else b2
  placePiece b3 m.toPos { movingPiece with hasMoved := true }

/-- The per-piece dispatch of `getLegalMoves` (`moves/index.ts`): the raw
candidate list before the king-safety filter (the knight arm adapts the
position-valued knight generator and drops friendly-fire squares). -/
def potentialMovesFor (position : Position) (gameState : GameState)
    (piece : Piece) : List Move :=
  match piece.type with
  | .pawn => getPawnMoves position gameState
  | .rook => getRookMoves position gameState
  | .knight =>
    (getKnightMoves position).flatMap fun toSq =>
      match getPieceAt toSq gameState.board with
      | some targetPiece =>
        if targetPiece.color = piece.color then []
        else [{ fromPos := position, toPos := toSq, capture := true }]
      | none => [{ fromPos := position, toPos := toSq, capture := false }]
  | .bishop => getBishopMoves position gameState
  | .queen => getQueenMoves position gameState
  | .king => getKingMoves position gameState

/-- `getLegalMoves` from `moves/index.ts`: dispatch to the per-piece generator,
then keep only candidates whose simulate-then-test board leaves the mover's own
king out of check. -/
def getLegalMoves (position : Position) (gameState : GameState) : List Move :=
  if !isValidPosition position then []
  else match getPieceAt position gameState.board with
  | none => []
  | some piece =>
    if piece.color ≠ gameState.currentTurn then []
    else
      (potentialMovesFor position gameState piece).filter fun m =>
        match getPieceAt position gameState.board with
        | none => false
        | some movingPiece =>
          !isPlayerInCheck
            { gameState with board := simulateMoveBoard gameState.board position movingPiece m }
            movingPiece.color

/-- `isValidMove` from `game.ts`: some legal move from `fromP` reaches `toP`. -/
def isValidMove (fromP toP : Position) (gameState : GameState) : Bool :=
  (getLegalMoves fromP gameState).any fun move => arePositionsEqual move.toPos toP

/-- The promotion-type validation inside `movePiece` (`game.ts`): anything
outside {ROOK, KNIGHT, BISHOP, QUEEN} silently becomes QUEEN. -/
def finalPromotionType (promotionType : PieceType) : PieceType :=
  if promotionType = .rook || promotionType = .knight || promotionType = .bishop ||
      promotionType = .queen then promotionType
  else .queen

/-- `movePiece` from `game.ts` with `skipStatusUpdate = true`: validate against
`getLegalMoves`, apply the move (en passant, promotion, castling included),
append the history entry, flip the turn, and reject if the mover's own king
ends up in check.  The `skipStatusUpdate = false` variant additionally runs
`updateGameStatus`; see `movePiece` below. -/
def movePieceSkip (fromP toP : Position) (gameState : GameState)
    (promotionType : PieceType) : Option GameState :=
  if !isValidPosition fromP || !isValidPosition toP then none
  else match getPieceAt fromP gameState.board with
  | none => none
  | some piece =>
    if piece.color ≠ gameState.currentTurn then none
    else
      let legalMoves := getLegalMoves fromP gameState
      match legalMoves.find? (fun move => arePositionsEqual move.toPos toP) with
      | none => none
      | some validMove =>
        let newBoard0 := cloneBoard gameState.board
        let capturedPiece : Option Piece :=
          if validMove.special = some SpecialMove.enPassant &&
              validMove.capturedPiecePosition.isSome then
            getPieceAt (validMove.capturedPiecePosition.getD toP) newBoard0
          else getPieceAt toP newBoard0
        let newBoard1 :=
          if validMove.special = some SpecialMove.enPassant &&
              validMove.capturedPiecePosition.isSome then
            clearPosition newBoard0 (validMove.capturedPiecePosition.getD toP)
          else newBoard0
        let newBoard2 := boardSetRC newBoard1 fromP.row.toNat fromP.col.toNat none
        let movedPiece : Piece :=
          if validMove.special = some SpecialMove.promotion then
            { type := finalPromotionType promotionType, color := piece.color, hasMoved := true }
          else { piece with hasMoved := true }
        let newBoard3 := placePiece newBoard2 toP movedPiece
        let newBoard4 :=
          if validMove.special = some SpecialMove.castling then
            let isKingside := toP.col > fromP.col
            let rookFrom : Position := if isKingside then ⟨7, fromP.row⟩ else ⟨0, fromP.row⟩
            let rookTo : Position := if isKingside then ⟨5, fromP.row⟩ else ⟨3, fromP.row⟩
            match getPieceAt rookFrom newBoard3 with
            | some rook =>
              placePiece (clearPosition newBoard3 rookFrom) rookTo { rook with hasMoved := true }
            | none => newBoard3
          else newBoard3
        let moveHistoryEntry : HistoryEntry :=
          { fromPos := fromP, toPos := toP, piece := piece,
            special := validMove.special, captured := capturedPiece,
            promotedTo :=
              if validMove.special = some SpecialMove.promotion then some promotionType
              else none }
        let newGameState : GameState :=
          { gameState with
            board := newBoard4,
            currentTurn := oppositeColor gameState.currentTurn,
            moveHistory := gameState.moveHistory ++ [moveHistoryEntry],
            isCheck := false, isCheckmate := false, isStalemate := false }
        let playerColor := gameState.currentTurn
        let tempStateForCheck := { newGameState with currentTurn := playerColor }
        if isPlayerInCheck tempStateForCheck playerColor then none
        else some newGameState

/-- `findAttackingPieces` from `game.ts`: positions (with pieces) of every
opposing piece whose attack predicate hits the defender's king square. -/
def findAttackingPieces (gameState : GameState) (defendingColor : Color) :
    List (Position × Piece) :=
  match findKingPosition gameState defendingColor with
  | none => []
  | some kingPosition =>
    let attackingColor := oppositeColor defendingColor
    allSquares.filterMap fun p =>
      match boardGetRC gameState.board p.row.toNat p.col.toNat with
      | some piece =>
        if piece.color = attackingColor &&
            canPieceAttackPosition piece p kingPosition gameState.board then
          some (p, piece)
        else none
      | none => none

/-- `getPathBetween` from `game.ts`: squares strictly between two positions on
a straight line (empty for non-straight pairs). -/
def getPathBetween (fromP toP : Position) : List Position :=
  let deltaRow := toP.row - fromP.row
  let deltaCol := toP.col - fromP.col
  let isLinear := deltaRow == 0 || deltaCol == 0 || deltaRow.natAbs == deltaCol.natAbs
  if !isLinear then []
  else pathBetween fromP toP

/-- `getActivePieces` from `game.ts`: row-major positions of all pieces of one
color. -/
def getActivePieces (gameState : GameState) (color : Color) : List Position :=
  allSquares.filter fun p =>
    match boardGetRC gameState.board p.row.toNat p.col.toNat with
    | some piece => piece.color == color
    | none => false

/-- `isCheckmate` from `game.ts`: in check, no king move escapes, and — for a
single attacker — no other piece can capture it or block its path. -/
def isCheckmate (gameState : GameState) (color : Color) : Bool :=
  if !isPlayerInCheck gameState color then false
  else match findKingPosition gameState color with
  | none => false
  | some kingPosition =>
    match getPieceAt kingPosition gameState.board with
    | none => false
    | some _ =>
      let kingMoves := getLegalMoves kingPosition gameState
      let kingEscape := kingMoves.any fun move =>
        match movePieceSkip kingPosition move.toPos gameState PieceType.queen with
        | some newGameState => !isPlayerInCheck newGameState color
        | none => false
      if kingEscape then false
      else
        let attackingPieces := findAttackingPieces gameState color
        match attackingPieces with
        | [attacker] =>
          let attackerPosition := attacker.1
          let defenders := getActivePieces gameState color
          let captureEscape := defenders.any fun defenderPos =>
            if defenderPos = kingPosition then false
            else
              isValidMove defenderPos attackerPosition gameState &&
                (match movePieceSkip defenderPos attackerPosition gameState PieceType.queen with
                 | some newGameState => !isPlayerInCheck newGameState color
                 | none => false)
          let blockEscape :=
            if attacker.2.type = PieceType.bishop || attacker.2.type = PieceType.rook ||
                attacker.2.type = PieceType.queen then
              let blockingSquares := getPathBetween attackerPosition kingPosition
              defenders.any fun defenderPos =>
                if defenderPos = kingPosition then false
                else
                  blockingSquares.any fun blockPos =>
                    isValidMove defenderPos blockPos gameState &&
                      (match movePieceSkip defenderPos blockPos gameState PieceType.queen with
                       | some newGameState => !isPlayerInCheck newGameState color
                       | none => false)
            else false
          if captureEscape || blockEscape then false else true
        | _ => true

/-- The board built by `isStalemate`'s inner simulation (`game.ts`): clear the
source square and place the piece, marked moved, at the destination — without
the en-passant handling the legality filter performs. -/
def stalemateSimBoard (board : Board) (piecePosition : Position) (piece : Piece)
    (m : Move) : Board :=
  placePiece (clearPosition (cloneBoard board) piecePosition) m.toPos
    { piece with hasMoved := true }

/-- `isStalemate` from `game.ts`: not in check, and no legal move of any own
piece leaves the king out of check in the (re-)simulation.  The source's
`console.log` debug output has no modelled effect. -/
def isStalemate (gameState : GameState) (color : Color) : Bool :=
  if isPlayerInCheck gameState color then false
  else
    let activePieces := getActivePieces gameState color
    !(activePieces.any fun piecePosition =>
      (getLegalMoves piecePosition gameState).any fun move =>
        match getPieceAt piecePosition (cloneBoard gameState.board) with
        | none => false
        | some piece =>
          !isPlayerInCheck
            { gameState with
              board := stalemateSimBoard gameState.board piecePosition piece move,
              currentTurn := color }
            color)

/-- `updateGameStatus` from `game.ts`: recompute the check / checkmate /
stalemate flags for the side to move. -/
def updateGameStatus (gameState : GameState) : GameState :=
  let currentPlayer := gameState.currentTurn
  let isInCheck := isPlayerInCheck gameState currentPlayer
  let isInCheckmate := isInCheck && isCheckmate gameState currentPlayer
  let isInStalemate := !isInCheck && isStalemate gameState currentPlayer
  { gameState with
    isCheck := isInCheck, isCheckmate := isInCheckmate, isStalemate := isInStalemate }

/-- `movePiece` from `game.ts` with `skipStatusUpdate = false` (the public
entry point): the skip variant followed by `updateGameStatus`. -/
def movePiece (fromP toP : Position) (gameState : GameState)
    (promotionType : PieceType) : Option GameState :=
  (movePieceSkip fromP toP gameState promotionType).map updateGameStatus

/-- `initGameState` from `game.ts`. -/
def initGameState : GameState :=
  { board := initBoard, currentTurn := .white, moveHistory := [],
    isCheck := false, isCheckmate := false, isStalemate := false }

/-- An empty 8x8 board (also the cleared board `fenPiecesToBoard` starts
from after wiping `initBoard`). -/
def emptyBoard : Board := List.replicate 8 (List.replicate 8 (none : Option Piece))

/-- Build a concrete board by placing pieces on the empty board (used for the
concrete positions appearing in claims and counterexamples). -/
def boardOfPieces (l : List (Position × Piece)) : Board :=
  l.foldl (fun b pr => placePiece b pr.1 pr.2) emptyBoard

/-- Decimal digit rendering of a natural number, with explicit fuel so the
recursion is structural (the fuel `n + 1` always suffices since each step
divides by ten). -/
def natToCharsAux : Nat → Nat → List Char
  | 0, _ => []
  | fuel + 1, n =>
    if n < 10 then [Char.ofNat (48 + n)]
    else natToCharsAux fuel (n / 10) ++ [Char.ofNat (48 + n % 10)]

/-- Decimal digit rendering of a natural number, as JavaScript
`Number.prototype.toString` produces for non-negative integers. -/
def natToChars (n : Nat) : List Char := natToCharsAux (n + 1) n

/-- Decimal rendering of an integer (sign included), as JavaScript
`Number.prototype.toString`. -/
def intToChars (n : Int) : List Char :=
  if n < 0 then Char.ofNat 45 :: natToChars n.natAbs else natToChars n.toNat

/-- `pieceToFenChar` from `fen.ts`: lowercase letter, uppercased for white. -/
def pieceToFenChar (piece : Piece) : Char :=
  let c : Char :=
    match piece.type with
    | .pawn => Char.ofNat 112
    | .rook => Char.ofNat 114
    | .knight => Char.ofNat 110
    | .bishop => Char.ofNat 98
    | .queen => Char.ofNat 113
    | .king => Char.ofNat 107
  if piece.color = .white then c.toUpper else c

/-- `fenCharToPiece` from `fen.ts`: `none` for space, slash, or any character
outside `prnbqk` (case-insensitively); uppercase means white.  Decoded pieces
carry no `hasMoved` flag (here `false`). -/
def fenCharToPiece (fenChar : Char) : Option Piece :=
  if fenChar = ' ' || fenChar = Char.ofNat 47 then none
  else
    let color : Color := if fenChar.toUpper = fenChar then .white else .black
    let lowerChar := fenChar.toLower
    let t : Option PieceType :=
      if lowerChar = Char.ofNat 112 then some .pawn
      else if lowerChar = Char.ofNat 114 then some .rook
      else if lowerChar = Char.ofNat 110 then some .knight
      else if lowerChar = Char.ofNat 98 then some .bishop
      else if lowerChar = Char.ofNat 113 then some .queen
      else if lowerChar = Char.ofNat 107 then some .king
      else none
    t.map fun ty => ⟨ty, color, false⟩

/-- The eight cells `board[row][0..7]` read the way the encoding loops of
`fen.ts` read them (out-of-range reads are empty). -/
def boardWindowRow (b : Board) (row : Nat) : List (Option Piece) :=
  (List.range 8).map fun col => boardGetRC b row col

/-- One rank of the FEN piece-placement field (`boardToFenPieces`'s inner loop
in `fen.ts`): runs of empties become their digit count, pieces become their
letters; `emptyCount` is the run carried into the remaining cells. -/
def rowToFen : List (Option Piece) → Nat → List Char
  | [], emptyCount => if emptyCount > 0 then natToChars emptyCount else []
  | some piece :: rest, emptyCount =>
    (if emptyCount > 0 then natToChars emptyCount else []) ++
      pieceToFenChar piece :: rowToFen rest 0
  | none :: rest, emptyCount => rowToFen rest (emptyCount + 1)

/-- Join rank strings with `/` separators (`boardToFenPieces`'s outer loop). -/
def joinSlash : List (List Char) → List Char
  | [] => []
  | [r] => r
  | r :: rest => r ++ Char.ofNat 47 :: joinSlash rest

/-- `boardToFenPieces` from `fen.ts`. -/
def boardToFenPieces (board : Board) : List Char :=
  joinSlash ((List.range 8).map fun row => rowToFen (boardWindowRow board row) 0)

/-- `getCastlingRights` from `fen.ts`: any subset of `KQkq` derived from the
`hasMoved` flags of whatever occupies the four corner/king home squares, or
`-` when empty.  (The source checks occupancy and `hasMoved` only, not piece
types.) -/
def getCastlingRights (gameState : GameState) : List Char :=
  let pairOk (k r : Option Piece) : Bool :=
    match k, r with
    | some kp, some rp => !kp.hasMoved && !rp.hasMoved
    | _, _ => false
  let whiteKing := boardGetRC gameState.board 7 4
  let blackKing := boardGetRC gameState.board 0 4
  let whiteKingsideRook := boardGetRC gameState.board 7 7
  let whiteQueensideRook := boardGetRC gameState.board 7 0
  let blackKingsideRook := boardGetRC gameState.board 0 7
  let blackQueensideRook := boardGetRC gameState.board 0 0
  let rights :=
    (if pairOk whiteKing whiteKingsideRook then [Char.ofNat 75] else []) ++
    (if pairOk whiteKing whiteQueensideRook then [Char.ofNat 81] else []) ++
    (if pairOk blackKing blackKingsideRook then [Char.ofNat 107] else []) ++
    (if pairOk blackKing blackQueensideRook then [Char.ofNat 113] else [])
  if rights.isEmpty then [Char.ofNat 45] else rights

/-- `getEnPassantTarget` from `fen.ts`: the algebraic square behind the pawn of
a just-played two-square advance, else `-`. -/
def getEnPassantTarget (gameState : GameState) : List Char :=
  match gameState.moveHistory.getLast? with
  | none => [Char.ofNat 45]
  | some lastMove =>
    if lastMove.piece.type = PieceType.pawn &&
        lastMove.special = some SpecialMove.twoSquareAdvance then
      let targetRow : Int :=
        if lastMove.piece.color = .white then lastMove.toPos.row + 1
        else lastMove.toPos.row - 1
      let targetCol := lastMove.toPos.col
      Char.ofNat (97 + targetCol).toNat :: intToChars (8 - targetRow)
    else [Char.ofNat 45]

/-- The character content of `gameStateToFen` from `fen.ts`: the six fields
joined by single spaces.  The halfmove clock is the literal `'0'` in the
source ("simplified to 0"); the fullmove number is
`floor(length / 2) + 1`. -/
def fenChars (gameState : GameState) : List Char :=
  boardToFenPieces gameState.board ++ (' ' ::
  ((if gameState.currentTurn = .white then ['w'] else ['b']) ++ (' ' ::
  (getCastlingRights gameState ++ (' ' ::
  (getEnPassantTarget gameState ++ (' ' ::
  (['0'] ++ (' ' :: natToChars (gameState.moveHistory.length / 2 + 1))))))))))

/-- `gameStateToFen` from `fen.ts`. -/
def gameStateToFen (gameState : GameState) : String :=
  String.mk (fenChars gameState)

/-- One step of whitespace-run splitting (`fen.trim().split(/\s+/)` in
`fen.ts`). -/
def wsSplitAux (c : Char) (acc : List (List Char)) : List (List Char) :=
  if c.isWhitespace then [] :: acc
  else
    match acc with
    | [] => [[c]]
    | t :: ts => (c :: t) :: ts

/-- Splitting a character list on whitespace runs, dropping empty tokens: the
effect of `fen.trim().split(/\s+/)` in `fen.ts` (for an all-whitespace input
JavaScript yields `[""]` where this yields `[]`; both fail the same
six-field length test). -/
def wsSplit (l : List Char) : List (List Char) :=
  (l.foldr wsSplitAux [[]]).filter fun t => !t.isEmpty

/-- Splitting on a separator character, JavaScript `String.prototype.split`
style (the empty input yields one empty token). -/
def splitOnChar (sep : Char) : List Char → List (List Char)
  | [] => [[]]
  | c :: rest =>
    let r := splitOnChar sep rest
    if c = sep then [] :: r
    else
      match r with
      | [] => [[c]]
      | t :: ts => (c :: t) :: ts

/-- The error message for a malformed field count in `fenToGameState`
(`fen.ts`). -/
def msgParts : String := "Invalid FEN: must have 6 space-separated parts"

/-- The error message for a malformed rank count in `fenPiecesToBoard`
(`fen.ts`). -/
def msgRows : String := "Invalid FEN: must have 8 rows"

/-- The error message of `fenPiecesToBoard` (`fen.ts`) for an unrecognized
character, naming the character (in single quotes) and the 1-indexed row. -/
def unrecognizedMsg (c : Char) (rowNum : Nat) : String :=
  String.mk ("Invalid FEN: unrecognized character ".toList ++
    Char.ofNat 39 :: c :: Char.ofNat 39 :: " in row ".toList ++ natToChars rowNum)

/-- A FEN digit `1`-`8` (the empty-run branch of `fenPiecesToBoard`). -/
def validFenDigit (c : Char) : Bool := '1' ≤ c && c ≤ '8'

/-- The per-rank loop of `fenPiecesToBoard` (`fen.ts`): digits advance the
column, recognized piece letters are written when the column is still below 8,
anything else raises the unrecognized-character error. -/
def parseFenRow (rowIdx : Nat) : List Char → Nat → Board → Except String Board
  | [], _, b => .ok b
  | c :: rest, col, b =>
    if validFenDigit c then parseFenRow rowIdx rest (col + (c.toNat - 48)) b
    else
      match fenCharToPiece c with
      | none => .error (unrecognizedMsg c (rowIdx + 1))
      | some piece =>
        parseFenRow rowIdx rest (col + 1)
          (if col < 8 then boardSetRC b rowIdx col (some piece) else b)

/-- The rank loop of `fenPiecesToBoard` (`fen.ts`). -/
def parseFenRows : List (List Char) → Nat → Board → Except String Board
  | [], _, b => .ok b
  | r :: rest, rowIdx, b =>
    match parseFenRow rowIdx r 0 b with
    | .error e => .error e
    | .ok b2 => parseFenRows rest (rowIdx + 1) b2

/-- `fenPiecesToBoard` from `fen.ts`: split the placement field on `/`, demand
eight ranks, and fill a cleared board. -/
def fenPiecesToBoard (fenPieces : List Char) : Except String Board :=
  let rows := splitOnChar (Char.ofNat 47) fenPieces
  if rows.length ≠ 8 then .error msgRows
  else parseFenRows rows 0 emptyBoard

/-- `fenToGameState` from `fen.ts`: split into exactly six whitespace-separated
fields, decode the board, read the active color, and return a state with empty
history and cleared status flags.  Failures are `Except.error` with the
source's messages. -/
def fenToGameState (fen : String) : Except String GameState :=
  match wsSplit fen.toList with
  | [pieces, activeColor, _castlingRights, _enPassantTarget, _halfmoveClock,
     _fullmoveNumber] =>
    match fenPiecesToBoard pieces with
    | .error e => .error e
    | .ok board =>
      let currentTurn : Color := if activeColor = ['w'] then .white else .black
      .ok { board := board, currentTurn := currentTurn, moveHistory := [],
            isCheck := false, isCheckmate := false, isStalemate := false }
  | _ => .error msgParts

/-- An 8x8 board whose stored rows all have length 8 (true of every board the
library itself builds; needed for read-back of writes). -/
def wellFormedBoard (b : Board) : Bool :=
  b.length == 8 && b.all fun r => r.length == 8

/-- A piece with its `hasMoved` flag cleared: what `fenCharToPiece` recovers
from `pieceToFenChar` (FEN cannot carry the flag). -/
def stripHasMoved (piece : Piece) : Piece := { piece with hasMoved := false }

/-- The effect of decoding one encoded rank back onto a board: walk the cells
left to right, writing each piece (flag cleared) at its column and skipping
empties. -/
def writeRow (rowIdx : Nat) : List (Option Piece) → Nat → Board → Board
  | [], _, b => b
  | none :: rest, col, b => writeRow rowIdx rest (col + 1) b
  | some pc :: rest, col, b =>
    writeRow rowIdx rest (col + 1) (boardSetRC b rowIdx col (some (stripHasMoved pc)))

/-- The castling conditions as the specification words them: king and rook
present with the stated types, same color, neither moved, same row, the path
between them empty (`isPathClear`), king not currently in check, and each of
the two squares the king crosses toward the rook (final square included) safe
when the king is placed there with its origin cleared. -/
def canCastleSpec (kingPosition rookPosition : Position) (gameState : GameState) : Bool :=
  match getPieceAt kingPosition gameState.board, getPieceAt rookPosition gameState.board with
  | some king, some rook =>
    king.type == PieceType.king && rook.type == PieceType.rook &&
    king.color == rook.color &&
    !king.hasMoved && !rook.hasMoved &&
    kingPosition.row == rookPosition.row &&
    isPathClear kingPosition rookPosition gameState.board &&
    !isPlayerInCheck gameState king.color &&
    (([1, 2] : List Int).all fun i =>
      let direction : Int := if rookPosition.col > kingPosition.col then 1 else -1
      let checkPos : Position := ⟨kingPosition.col + direction * i, kingPosition.row⟩
      !isPlayerInCheck
        { gameState with
          board := placePiece (clearPosition gameState.board kingPosition) checkPos king }
        king.color)
  | _, _ => false

/-- The stalemate condition as the specification words it: no board square
holding a piece of the given color has any move in `getLegalMoves`. -/
def noLegalMoveForColor (gameState : GameState) (color : Color) : Bool :=
  allSquares.all fun p =>
    match boardGetRC gameState.board p.row.toNat p.col.toNat with
    | some piece => !(piece.color == color) || (getLegalMoves p gameState).isEmpty
    | none => true

/-- Consistency of the last history entry with the board, as holds in every
position actually reached by play: if the last entry is a pawn's two-square
advance (the only case in which en-passant candidates arise), the square it
landed on holds a pawn of that mover's color (or nothing), and the square it
jumped over — the en-passant capture destination — is empty. -/
def enPassantConsistent (gameState : GameState) : Bool :=
  match gameState.moveHistory.getLast? with
  | none => true
  | some lm =>
    if lm.piece.type = PieceType.pawn && lm.special = some SpecialMove.twoSquareAdvance then
      (match getPieceAt lm.toPos gameState.board with
       | some pc => pc.type == PieceType.pawn && pc.color == lm.piece.color
       | none => true) &&
      (getPieceAt
        ⟨lm.toPos.col, lm.toPos.row + (if lm.piece.color = .white then 1 else -1)⟩
        gameState.board).isNone
    else true

/-- Sanity of the last history entry for FEN encoding: when it is a pawn's
two-square advance (the only case `getEnPassantTarget` reads coordinates
from), its destination is on the board — true of every entry `movePiece`
appends. -/
def lastMoveSane (gameState : GameState) : Bool :=
  match gameState.moveHistory.getLast? with
  | none => true
  | some lm =>
    !(lm.piece.type == PieceType.pawn &&
        lm.special == some SpecialMove.twoSquareAdvance) ||
      isValidPosition lm.toPos

/-- Modelled from the spec: the halfmove clock "derived ... by counting back
through history until a pawn move or capture is found" — the number of
most-recent entries that are neither pawn moves nor captures (the source
instead hardcodes the clock; this is the claim's reference value). -/
def specHalfmoveCount : List HistoryEntry → Nat
  | [] => 0
  | e :: rest =>
    if e.piece.type = PieceType.pawn || e.captured.isSome then 0
    else specHalfmoveCount rest + 1

/-- Modelled from the spec: the halfmove clock for a history in chronological
order (walk back from the most recent entry). -/
def specHalfmoveClock (history : List HistoryEntry) : Nat :=
  specHalfmoveCount history.reverse

/-- A FEN piece-placement character the decoder accepts: a digit `1`-`8` or a
letter `fenCharToPiece` recognizes. -/
def validFenChar (c : Char) : Bool := validFenDigit c || (fenCharToPiece c).isSome

/-- The first decoder-rejected character among the ranks, with its 1-indexed
row number, scanning rows then characters in order — the character
`fenPiecesToBoard`'s error names. -/
def firstBadFenChar : List (List Char) → Nat → Option (Char × Nat)
  | [], _ => none
  | r :: rest, rowIdx =>
    match r.find? (fun c => !validFenChar c) with
    | some c => some (c, rowIdx + 1)
    | none => firstBadFenChar rest (rowIdx + 1)

/-- The error component of an `Except` result. -/
def errOf : Except String GameState → Option String
  | .error e => some e
  | .ok _ => none

/-- The error `fenToGameState` is specified to raise (`none` = no error): the
six-field message, else the eight-rank message, else the unrecognized-character
message for the first offending character. -/
def fenExpectedError (fen : String) : Option String :=
  let parts := wsSplit fen.toList
  if parts.length ≠ 6 then some msgParts
  else
    let rows := splitOnChar (Char.ofNat 47) (parts.headD [])
    if rows.length ≠ 8 then some msgRows
    else (firstBadFenChar rows 0).map fun cr => unrecognizedMsg cr.1 cr.2

/-- A board holding a single white rook at a8, used to exercise the legality
filter on a concrete input. -/
def rookOnlyState : GameState :=
  { board := boardOfPieces [(⟨0, 0⟩, ⟨.rook, .white, false⟩)],
    currentTurn := .white, moveHistory := [], isCheck := false,
    isCheckmate := false, isStalemate := false }

/-- A reachable-looking position, white to move: white king h4 boxed in by its
own pawns h5, g4, g3, h3; black pawn g5 (which just advanced two squares from
g7) gives check; black pawn h6 guards g5; white pawn f5 can capture it en
passant; black king far away at a8. -/
def cexMate : GameState :=
  { board := boardOfPieces
      [(⟨7, 4⟩, ⟨.king, .white, true⟩),
       (⟨5, 3⟩, ⟨.pawn, .white, true⟩), (⟨7, 3⟩, ⟨.pawn, .white, true⟩),
       (⟨6, 4⟩, ⟨.pawn, .white, true⟩), (⟨6, 5⟩, ⟨.pawn, .white, true⟩),
       (⟨7, 5⟩, ⟨.pawn, .white, true⟩),
       (⟨6, 3⟩, ⟨.pawn, .black, true⟩), (⟨7, 2⟩, ⟨.pawn, .black, true⟩),
       (⟨0, 0⟩, ⟨.king, .black, true⟩)],
    currentTurn := .white,
    moveHistory := [{ fromPos := ⟨6, 1⟩, toPos := ⟨6, 3⟩,
                      piece := ⟨.pawn, .black, true⟩,
                      special := some .twoSquareAdvance }],
    isCheck := false, isCheckmate := false, isStalemate := false }

/-- The expected en-passant escape from `cexMate`: f5 captures g5 en passant,
landing on g6. -/
def cexMateEscape : Move :=
  { fromPos := ⟨5, 3⟩, toPos := ⟨6, 2⟩, capture := true,
    special := some .enPassant, capturedPiecePosition := some ⟨6, 3⟩ }

/-- A state whose history is inconsistent with its board: the last entry claims
a black pawn double-stepped to e5, but e5 holds a black rook.  White king a5,
white pawns d5 and a4, black knights d6 and a2, black king b7.  The only legal
white move is the en-passant "capture" of the e5 rook. -/
def cexStale : GameState :=
  { board := boardOfPieces
      [(⟨0, 3⟩, ⟨.king, .white, true⟩),
       (⟨3, 3⟩, ⟨.pawn, .white, true⟩), (⟨0, 4⟩, ⟨.pawn, .white, true⟩),
       (⟨4, 3⟩, ⟨.rook, .black, true⟩), (⟨3, 2⟩, ⟨.knight, .black, true⟩),
       (⟨0, 6⟩, ⟨.knight, .black, true⟩), (⟨1, 1⟩, ⟨.king, .black, true⟩)],
    currentTurn := .white,
    moveHistory := [{ fromPos := ⟨4, 1⟩, toPos := ⟨4, 3⟩,
                      piece := ⟨.pawn, .black, true⟩,
                      special := some .twoSquareAdvance }],
    isCheck := false, isCheckmate := false, isStalemate := false }

/-- The position the claim's stalemate scenario describes literally: black king
h8, white queen f7, white rook a8, black to move. -/
def claimStalemateA8 : GameState :=
  { board := boardOfPieces
      [(⟨7, 0⟩, ⟨.king, .black, false⟩), (⟨5, 1⟩, ⟨.queen, .white, false⟩),
       (⟨0, 0⟩, ⟨.rook, .white, false⟩)],
    currentTurn := .black, moveHistory := [], isCheck := false,
    isCheckmate := false, isStalemate := false }

/-- The position the repository's stalemate test actually builds: black king
h8, white queen f7, white rook a6 (the test's comment says a8 but it places
the rook at `{ col: 0, row: 2 }`), black to move. -/
def testStalemateA6 : GameState :=
  { board := boardOfPieces
      [(⟨7, 0⟩, ⟨.king, .black, false⟩), (⟨5, 1⟩, ⟨.queen, .white, false⟩),
       (⟨0, 2⟩, ⟨.rook, .white, false⟩)],
    currentTurn := .black, moveHistory := [], isCheck := false,
    isCheckmate := false, isStalemate := false }

/-- A state whose only piece is a white king on e1 that has moved. -/
def movedKingState : GameState :=
  { board := boardOfPieces [(⟨4, 7⟩, ⟨.king, .white, true⟩)],
    currentTurn := .white, moveHistory := [], isCheck := false,
    isCheckmate := false, isStalemate := false }

/-- The initial position after the non-pawn, non-capturing move Ng1-f3: one
history entry that is neither a pawn move nor a capture. -/
def c9State : GameState :=
  { board := initBoard, currentTurn := .black,
    moveHistory := [{ fromPos := ⟨6, 7⟩, toPos := ⟨5, 5⟩,
                      piece := ⟨.knight, .white, false⟩ }],
    isCheck := false, isCheckmate := false, isStalemate := false }

/-- A white pawn on e7, one step from promotion, white to move. -/
def promoState : GameState :=
  { board := boardOfPieces [(⟨4, 1⟩, ⟨.pawn, .white, true⟩)],
    currentTurn := .white, moveHistory := [], isCheck := false,
    isCheckmate := false, isStalemate := false }

/-! ### Supporting lemmas -/

/-- Membership in `getLegalMoves` implies the guards passed and the candidate
survived the simulate-then-test filter. -/
theorem mem_getLegalMoves_elim {position : Position} {gameState : GameState} {m : Move}
    (h : m ∈ getLegalMoves position gameState) :
    ∃ piece, isValidPosition position = true ∧
      getPieceAt position gameState.board = some piece ∧
      piece.color = gameState.currentTurn ∧
      m ∈ potentialMovesFor position gameState piece ∧
      isPlayerInCheck
        { gameState with board := simulateMoveBoard gameState.board position piece m }
        piece.color = false := by
  cases hv : isValidPosition position with
  | false => simp [getLegalMoves, hv] at h
  | true =>
    cases hp : getPieceAt position gameState.board with
    | none => simp [getLegalMoves, hv, hp] at h
    | some piece =>
      by_cases hc : piece.color = gameState.currentTurn
      · refine ⟨piece, rfl, rfl, hc, ?_, ?_⟩
        · simp only [getLegalMoves, hv, hp, Bool.not_true, Bool.false_eq_true,
            if_false, hc, ne_eq, not_true_eq_false] at h
          exact (List.mem_filter.mp h).1
        · rw [hc]
          simp only [getLegalMoves, hv, hp, Bool.not_true, Bool.false_eq_true,
            if_false, hc, ne_eq, not_true_eq_false] at h
          have h2 := (List.mem_filter.mp h).2
          simpa using h2
      · simp [getLegalMoves, hv, hp, hc] at h

/-- `boardSetRC` keeps an 8x8 board 8x8. -/
theorem wellFormedBoard_boardSetRC (b : Board) (r c : Nat) (v : Option Piece)
    (h : wellFormedBoard b = true) : wellFormedBoard (boardSetRC b r c v) = true := by
  by_cases hr : r < b.length
  · simp only [wellFormedBoard, boardSetRC, Bool.and_eq_true, beq_iff_eq,
      List.all_eq_true] at *
    obtain ⟨hl, hrows⟩ := h
    refine ⟨by simpa using hl, ?_⟩
    intro row hrow
    rcases List.mem_or_eq_of_mem_set hrow with hmem | heq
    · exact hrows row hmem
    · subst heq
      cases hget : b.get? r with
      | none =>
        exact absurd
          (by simpa [List.get?_eq_getElem?, List.getElem?_eq_none_iff] using hget)
          (by omega)
      | some row0 =>
        have hm : row0 ∈ b := List.get?_mem hget
        simpa [hget] using hrows row0 hm
  · unfold boardSetRC
    rw [List.set_eq_of_length_le (by omega)]
    exact h

/-- `clearPosition` keeps an 8x8 board 8x8. -/
theorem wellFormedBoard_clearPosition (b : Board) (p : Position)
    (h : wellFormedBoard b = true) : wellFormedBoard (clearPosition b p) = true := by
  unfold clearPosition
  split
  · exact wellFormedBoard_boardSetRC _ _ _ _ h
  · exact h

/-- A valid position has both coordinates below 8 after `toNat`. -/
theorem isValidPosition_bounds {p : Position} (h : isValidPosition p = true) :
    p.row.toNat < 8 ∧ p.col.toNat < 8 := by
  simp only [isValidPosition, Bool.and_eq_true, decide_eq_true_eq] at h
  omega

/-- In-range writes read back. -/
theorem boardGetRC_boardSetRC_self (b : Board) (r c : Nat) (v : Option Piece)
    (hr : r < b.length) (hc : c < ((b.get? r).getD []).length) :
    boardGetRC (boardSetRC b r c v) r c = v := by
  unfold boardGetRC boardSetRC
  simp only [List.get?_eq_getElem?] at *
  rw [List.getElem?_set_self (by simpa using hr)]
  simp only [Option.getD_some]
  rw [List.getElem?_set_self (by simpa using hc)]
  rfl

/-- On an 8x8 board, `placePiece` at a valid position reads back. -/
theorem getPieceAt_placePiece_self (b : Board) (p : Position) (pc : Piece)
    (hwf : wellFormedBoard b = true) (hv : isValidPosition p = true) :
    getPieceAt p (placePiece b p pc) = some pc := by
  obtain ⟨hrow, hcol⟩ := isValidPosition_bounds hv
  simp only [wellFormedBoard, Bool.and_eq_true, beq_iff_eq, List.all_eq_true] at hwf
  obtain ⟨hl, hrows⟩ := hwf
  unfold getPieceAt placePiece
  rw [hv]
  simp only [if_true]
  apply boardGetRC_boardSetRC_self
  · omega
  · cases hget : b.get? p.row.toNat with
    | none =>
      exact absurd
        (by simpa [List.get?_eq_getElem?, List.getElem?_eq_none_iff] using hget)
        (by omega)
    | some row0 =>
      have hm : row0 ∈ b := List.get?_mem hget
      have h8 := hrows row0 hm
      simp [hget, h8]
      omega

/-- `updateGameStatus` only rewrites the three status flags. -/
theorem updateGameStatus_board (g : GameState) : (updateGameStatus g).board = g.board := rfl

/-- `updateGameStatus` leaves the move history alone. -/
theorem updateGameStatus_moveHistory (g : GameState) :
    (updateGameStatus g).moveHistory = g.moveHistory := rfl

/-- A successful `movePiece` is a successful `movePieceSkip` followed by
`updateGameStatus`. -/
theorem movePiece_some_elim {fromP toP : Position} {gameState : GameState}
    {promotionType : PieceType} {gs' : GameState}
    (hres : movePiece fromP toP gameState promotionType = some gs') :
    ∃ gs0, movePieceSkip fromP toP gameState promotionType = some gs0 ∧
      gs' = updateGameStatus gs0 := by
  unfold movePiece at hres
  cases h : movePieceSkip fromP toP gameState promotionType with
  | none => simp [h] at hres
  | some gs0 =>
    rw [h] at hres
    simp only [Option.map_some', Option.some.injEq] at hres
    exact ⟨gs0, rfl, hres.symm⟩

/-- Structure of a successful promotion inside `movePieceSkip`: the destination
holds the validated promotion piece placed on a board built from the input
board by writes, and the appended history entry records the raw
`promotionType`. -/
theorem movePieceSkip_promotion_struct
    (fromP toP : Position) (gameState : GameState) (promotionType : PieceType)
    (piece : Piece) (m : Move) (gs0 : GameState)
    (hpiece : getPieceAt fromP gameState.board = some piece)
    (hfind : (getLegalMoves fromP gameState).find?
      (fun mv => arePositionsEqual mv.toPos toP) = some m)
    (hspecial : m.special = some SpecialMove.promotion)
    (hres : movePieceSkip fromP toP gameState promotionType = some gs0) :
    isValidPosition toP = true ∧
    (∃ b, gs0.board = placePiece b toP ⟨finalPromotionType promotionType, piece.color, true⟩ ∧
      (wellFormedBoard gameState.board = true → wellFormedBoard b = true)) ∧
    ∃ entry, gs0.moveHistory = gameState.moveHistory ++ [entry] ∧
      entry.promotedTo = some promotionType := by
  simp only [movePieceSkip, hpiece, hfind, hspecial, cloneBoard, Option.some.injEq,
    reduceCtorEq, decide_eq_true_eq, Bool.false_and, Bool.and_false, if_false,
    Bool.false_eq_true, if_true, Option.isSome_some, Bool.and_true, ite_true, ite_false,
    decide_False, decide_True] at hres
  split at hres
  · exact absurd hres (by simp)
  · next hValid =>
    have hvTo : isValidPosition toP = true := by
      revert hValid
      cases isValidPosition toP <;> cases isValidPosition fromP <;> simp
    split at hres
    · exact absurd hres (by simp)
    · split at hres
      · exact absurd hres (by simp)
      · cases hres
        refine ⟨hvTo, ⟨_, rfl, fun hwf => wellFormedBoard_boardSetRC _ _ _ _ hwf⟩,
          _, rfl, rfl⟩

/-! ### Claim theorems -/

/-- C1: every move returned by `getLegalMoves` for a piece of the side to move
passes the simulate-then-test filter — applying it to a clone of the board
(clear origin, clear the captured square or the en-passant victim, place the
mover with `hasMoved`) leaves `isPlayerInCheck` false for the mover's color. -/
theorem getLegalMoves_no_self_check
    (gameState : GameState) (position : Position) (piece : Piece) (m : Move)
    (hpiece : getPieceAt position gameState.board = some piece)
    (hm : m ∈ getLegalMoves position gameState) :
    isPlayerInCheck
      { gameState with board := simulateMoveBoard gameState.board position piece m }
      piece.color = false := by
  obtain ⟨piece2, _, hp2, _, _, hcheck⟩ := mem_getLegalMoves_elim hm
  rw [hpiece] at hp2
  cases hp2
  exact hcheck

/-- C1 witness: a concrete legal rook move from a8 on an otherwise empty board
leaves white unchecked after simulation. -/
theorem getLegalMoves_no_self_check_witness :
    getPieceAt ⟨0, 0⟩ rookOnlyState.board = some ⟨.rook, .white, false⟩ ∧
    { fromPos := ⟨0, 0⟩, toPos := ⟨1, 0⟩, capture := false : Move } ∈
      getLegalMoves ⟨0, 0⟩ rookOnlyState ∧
    isPlayerInCheck
      { rookOnlyState with
        board := simulateMoveBoard rookOnlyState.board ⟨0, 0⟩ ⟨.rook, .white, false⟩
          { fromPos := ⟨0, 0⟩, toPos := ⟨1, 0⟩, capture := false } }
      Color.white = false :=
  ⟨by decide, by decide,
    getLegalMoves_no_self_check rookOnlyState ⟨0, 0⟩ ⟨.rook, .white, false⟩
      { fromPos := ⟨0, 0⟩, toPos := ⟨1, 0⟩, capture := false } (by decide) (by decide)⟩

/-- C2: at `cexMate`, white is in check and `isCheckmate` reports checkmate,
yet `getLegalMoves` still offers the en-passant capture of the checking pawn
(and `movePiece` plays it) — the capture-the-attacker branch of `isCheckmate`
compares destinations with the attacker's square, which misses en passant, and
pawns get no blocking branch.  The checkmate classification therefore is not
the claimed "in check and the legal-move union is empty". -/
theorem isCheckmate_misses_en_passant_escape :
    isPlayerInCheck cexMate .white = true ∧
    isCheckmate cexMate .white = true ∧
    getLegalMoves ⟨5, 3⟩ cexMate = [cexMateEscape] ∧
    getPieceAt ⟨5, 3⟩ cexMate.board = some ⟨.pawn, .white, true⟩ ∧
    (movePiece ⟨5, 3⟩ ⟨6, 2⟩ cexMate .queen).isSome = true := by decide

/-- C3: whenever a coordinate is off the board, the source square is empty or
holds an off-turn piece, or no legal move reaches the destination, `movePiece`
returns `null` (no exception path exists: the embedding is a total function
into `Option`, and the input state is untouched by purity). -/
theorem movePiece_rejects_silently
    (fromP toP : Position) (gameState : GameState) (promotionType : PieceType)
    (h : isValidPosition fromP = false ∨ isValidPosition toP = false ∨
      getPieceAt fromP gameState.board = none ∨
      (∃ piece, getPieceAt fromP gameState.board = some piece ∧
        piece.color ≠ gameState.currentTurn) ∨
      ∀ m ∈ getLegalMoves fromP gameState, arePositionsEqual m.toPos toP = false) :
    movePiece fromP toP gameState promotionType = none := by
  have hskip : movePieceSkip fromP toP gameState promotionType = none := by
    rcases h with h | h | h | ⟨piece, hp, hc⟩ | h
    · simp [movePieceSkip, h]
    · simp [movePieceSkip, h]
    · simp [movePieceSkip, h]
    · simp [movePieceSkip, hp, hc]
    · have hf : (getLegalMoves fromP gameState).find?
          (fun move => arePositionsEqual move.toPos toP) = none :=
        List.find?_eq_none.mpr (by intro x hx; simp [h x hx])
      simp only [movePieceSkip, hf]
      split
      · rfl
      · split <;> simp
  simp [movePiece, hskip]

/-- C3 witness: an out-of-bounds source square is rejected with `null`. -/
theorem movePiece_rejects_silently_witness :
    movePiece ⟨-1, 5⟩ ⟨0, 5⟩ initGameState .queen = none :=
  movePiece_rejects_silently ⟨-1, 5⟩ ⟨0, 5⟩ initGameState .queen (Or.inl (by decide))

set_option maxHeartbeats 2000000 in
/-- C5: `canCastle` returns true exactly under the specification's conjunction:
king and rook present with the stated types, same color, neither moved, same
row, clear path, king not in check now, and both crossed squares (final square
included) safe for the king. -/
theorem canCastle_eq_spec (kingPosition rookPosition : Position) (gameState : GameState) :
    canCastle kingPosition rookPosition gameState =
      canCastleSpec kingPosition rookPosition gameState := by
  unfold canCastle canCastleSpec
  cases hk : getPieceAt kingPosition gameState.board with
  | none => rfl
  | some king =>
    cases hr : getPieceAt rookPosition gameState.board with
    | none => simp
    | some rook =>
      obtain ⟨kt, kc, km⟩ := king
      obtain ⟨rt, rc, rm⟩ := rook
      simp only [cloneBoard]
      by_cases h5 : kc = rc
      · subst h5
        by_cases h1 : kt = PieceType.king <;>
        by_cases h2 : km = true <;>
        by_cases h3 : rt = PieceType.rook <;>
        by_cases h4 : rm = true <;>
        by_cases h6 : kingPosition.row = rookPosition.row <;>
        by_cases h7 : isPlayerInCheck gameState kc = true <;>
        by_cases h8 : isPathClear kingPosition rookPosition gameState.board = true <;>
          simp [h1, h2, h3, h4, h6, h7, h8]
      · by_cases h1 : kt = PieceType.king <;>
        by_cases h2 : km = true <;>
        by_cases h3 : rt = PieceType.rook <;>
        by_cases h4 : rm = true <;>
          simp [h1, h2, h3, h4, h5]

/-- C7: when the matched candidate is a promotion, the destination square of a
successful `movePiece` holds the validated promotion piece of the mover's
color — the requested type if it is rook, knight, bishop, or queen, else a
queen — and that validated type is never king or pawn. -/
theorem movePiece_promotion_places_validated
    (fromP toP : Position) (gameState : GameState) (promotionType : PieceType)
    (piece : Piece) (m : Move) (gs' : GameState)
    (hwf : wellFormedBoard gameState.board = true)
    (hpiece : getPieceAt fromP gameState.board = some piece)
    (hfind : (getLegalMoves fromP gameState).find?
      (fun mv => arePositionsEqual mv.toPos toP) = some m)
    (hspecial : m.special = some SpecialMove.promotion)
    (hres : movePiece fromP toP gameState promotionType = some gs') :
    getPieceAt toP gs'.board =
      some ⟨finalPromotionType promotionType, piece.color, true⟩ ∧
    finalPromotionType promotionType ≠ PieceType.king ∧
    finalPromotionType promotionType ≠ PieceType.pawn := by
  obtain ⟨gs0, hskip, rfl⟩ := movePiece_some_elim hres
  obtain ⟨hvTo, ⟨b, hb, hwfb⟩, _⟩ :=
    movePieceSkip_promotion_struct fromP toP gameState promotionType piece m gs0
      hpiece hfind hspecial hskip
  rw [updateGameStatus_board, hb]
  refine ⟨getPieceAt_placePiece_self _ _ _ (hwfb hwf) hvTo, ?_, ?_⟩
  · cases promotionType <;> simp [finalPromotionType]
  · cases promotionType <;> simp [finalPromotionType]

/-- C7 witness: promoting with the invalid request KING places a queen. -/
theorem movePiece_promotion_places_validated_witness :
    getPieceAt ⟨4, 0⟩
      ((movePiece ⟨4, 1⟩ ⟨4, 0⟩ promoState PieceType.king).getD promoState).board =
      some ⟨finalPromotionType PieceType.king, Color.white, true⟩ ∧
    finalPromotionType PieceType.king ≠ PieceType.king ∧
    finalPromotionType PieceType.king ≠ PieceType.pawn :=
  movePiece_promotion_places_validated ⟨4, 1⟩ ⟨4, 0⟩ promoState PieceType.king
    ⟨.pawn, .white, true⟩
    { fromPos := ⟨4, 1⟩, toPos := ⟨4, 0⟩, special := some .promotion }
    ((movePiece ⟨4, 1⟩ ⟨4, 0⟩ promoState PieceType.king).getD promoState)
    (by decide) (by decide) (by decide) (by decide) (by decide)

/-- C10: the history entry a successful promotion appends records `promotedTo`
as the raw `promotionType` argument, while the board receives the validated
type — so an invalid request (e.g. KING) makes the two disagree. -/
theorem movePiece_promotion_history_records_raw_type
    (fromP toP : Position) (gameState : GameState) (promotionType : PieceType)
    (piece : Piece) (m : Move) (gs' : GameState)
    (hwf : wellFormedBoard gameState.board = true)
    (hpiece : getPieceAt fromP gameState.board = some piece)
    (hfind : (getLegalMoves fromP gameState).find?
      (fun mv => arePositionsEqual mv.toPos toP) = some m)
    (hspecial : m.special = some SpecialMove.promotion)
    (hres : movePiece fromP toP gameState promotionType = some gs') :
    gs'.moveHistory.getLast?.map HistoryEntry.promotedTo = some (some promotionType) ∧
    getPieceAt toP gs'.board =
      some ⟨finalPromotionType promotionType, piece.color, true⟩ := by
  obtain ⟨gs0, hskip, rfl⟩ := movePiece_some_elim hres
  obtain ⟨hvTo, ⟨b, hb, hwfb⟩, entry, hhist, hpromo⟩ :=
    movePieceSkip_promotion_struct fromP toP gameState promotionType piece m gs0
      hpiece hfind hspecial hskip
  constructor
  · rw [updateGameStatus_moveHistory, hhist, List.getLast?_concat]
    simp [hpromo]
  · rw [updateGameStatus_board, hb]
    exact getPieceAt_placePiece_self _ _ _ (hwfb hwf) hvTo

/-- C10 witness: after requesting promotion to KING, the history says KING
while the board holds the validated piece (a queen). -/
theorem movePiece_promotion_history_records_raw_type_witness :
    ((movePiece ⟨4, 1⟩ ⟨4, 0⟩ promoState PieceType.king).getD
        promoState).moveHistory.getLast?.map HistoryEntry.promotedTo =
      some (some PieceType.king) ∧
    getPieceAt ⟨4, 0⟩
      ((movePiece ⟨4, 1⟩ ⟨4, 0⟩ promoState PieceType.king).getD promoState).board =
      some ⟨finalPromotionType PieceType.king, Color.white, true⟩ :=
  movePiece_promotion_history_records_raw_type ⟨4, 1⟩ ⟨4, 0⟩ promoState PieceType.king
    ⟨.pawn, .white, true⟩
    { fromPos := ⟨4, 1⟩, toPos := ⟨4, 0⟩, special := some .promotion }
    ((movePiece ⟨4, 1⟩ ⟨4, 0⟩ promoState PieceType.king).getD promoState)
    (by decide) (by decide) (by decide) (by decide) (by decide)

/-- A rank of accepted characters parses without error. -/
theorem parseFenRow_ok_of_valid (rowIdx : Nat) (cs : List Char)
    (h : ∀ c ∈ cs, validFenChar c = true) :
    ∀ (col : Nat) (b : Board), ∃ b2, parseFenRow rowIdx cs col b = .ok b2 := by
  induction cs with
  | nil => intro col b; exact ⟨b, rfl⟩
  | cons c rest ih =>
    intro col b
    have hc : validFenChar c = true := h c (List.mem_cons_self c rest)
    have hrest : ∀ x ∈ rest, validFenChar x = true :=
      fun x hx => h x (List.mem_cons_of_mem c hx)
    unfold parseFenRow
    by_cases hd : validFenDigit c = true
    · rw [if_pos hd]
      exact ih hrest _ _
    · rw [if_neg hd]
      cases hfc : fenCharToPiece c with
      | none =>
        exact absurd hc (by simp [validFenChar, hd, hfc])
      | some piece => exact ih hrest _ _

/-- A rank errors on its first rejected character, naming it and the
1-indexed row. -/
theorem parseFenRow_error_of_bad (rowIdx : Nat) (cs : List Char) (c : Char)
    (hfind : cs.find? (fun x => !validFenChar x) = some c) :
    ∀ (col : Nat) (b : Board),
      parseFenRow rowIdx cs col b = .error (unrecognizedMsg c (rowIdx + 1)) := by
  induction cs with
  | nil => simp at hfind
  | cons c0 rest ih =>
    intro col b
    by_cases hv : validFenChar c0 = true
    · rw [List.find?_cons_of_neg _ (by simp [hv])] at hfind
      unfold parseFenRow
      by_cases hd : validFenDigit c0 = true
      · rw [if_pos hd]
        exact ih hfind _ _
      · rw [if_neg hd]
        cases hfc : fenCharToPiece c0 with
        | none => exact absurd hv (by simp [validFenChar, hd, hfc])
        | some piece => exact ih hfind _ _
    · rw [List.find?_cons_of_pos _ (by simp [hv])] at hfind
      cases hfind
      have hd : validFenDigit c = false := by
        cases hdd : validFenDigit c
        · rfl
        · exact absurd (by simp [validFenChar, hdd]) hv
      have hfc : fenCharToPiece c = none := by
        cases hff : fenCharToPiece c with
        | none => rfl
        | some piece => exact absurd (by simp [validFenChar, hff]) hv
      unfold parseFenRow
      rw [if_neg (by simp [hd]), hfc]

/-- The rank loop errors exactly on the first rejected character over all
ranks in order. -/
theorem parseFenRows_spec (rows : List (List Char)) :
    ∀ (rowIdx : Nat) (b : Board),
      (match firstBadFenChar rows rowIdx with
       | some cr => parseFenRows rows rowIdx b = .error (unrecognizedMsg cr.1 cr.2)
       | none => ∃ b2, parseFenRows rows rowIdx b = .ok b2) := by
  induction rows with
  | nil => intro rowIdx b; exact ⟨b, rfl⟩
  | cons r rest ih =>
    intro rowIdx b
    unfold firstBadFenChar parseFenRows
    cases hfind : r.find? (fun x => !validFenChar x) with
    | some c =>
      rw [parseFenRow_error_of_bad rowIdx r c hfind]
    | none =>
      have hvalid : ∀ x ∈ r, validFenChar x = true := by
        intro x hx
        have := List.find?_eq_none.mp hfind x hx
        simpa using this
      obtain ⟨b2, hb2⟩ := parseFenRow_ok_of_valid rowIdx r hvalid 0 b
      rw [hb2]
      exact ih (rowIdx + 1) b2

/-- C8 (amended): `fenToGameState` raises an error exactly on malformed input,
with the field-specific message — `"Invalid FEN: must have 6 space-separated
parts"` when the input does not split into six whitespace-separated fields,
`"Invalid FEN: must have 8 rows"` when the placement field does not have eight
`/`-separated ranks, and `"Invalid FEN: unrecognized character '<c>' in row
<n>"` (1-indexed row) for the first character that is neither a digit 1-8 nor
one of `prnbqkPRNBQK`; any input avoiding all three raises nothing. -/
theorem fenToGameState_error_spec (fen : String) :
    errOf (fenToGameState fen) = fenExpectedError fen := by
  unfold fenToGameState fenExpectedError
  match hp : wsSplit fen.toList with
  | [] => simp [errOf]
  | [a] => simp [errOf]
  | [a, b] => simp [errOf]
  | [a, b, c] => simp [errOf]
  | [a, b, c, d] => simp [errOf]
  | [a, b, c, d, e] => simp [errOf]
  | a :: b :: c :: d :: e :: f :: g :: rest => simp [errOf]
  | [p1, p2, p3, p4, p5, p6] =>
    simp only [List.length_cons, List.length_nil, List.headD_cons]
    unfold fenPiecesToBoard
    by_cases hrows : (splitOnChar (Char.ofNat 47) p1).length = 8
    · have hspec := parseFenRows_spec (splitOnChar (Char.ofNat 47) p1) 0 emptyBoard
      cases hbad : firstBadFenChar (splitOnChar (Char.ofNat 47) p1) 0 with
      | some cr =>
        rw [hbad] at hspec
        simp [hrows, hspec, errOf]
      | none =>
        rw [hbad] at hspec
        obtain ⟨b2, hb2⟩ := hspec
        simp [hrows, hb2, hbad, errOf]
    · simp [hrows, errOf]

/-- C8 counterexample: the messages carry an `"Invalid FEN: "` prefix the
claim omits, so the claim's exact message equalities fail on concrete
malformed inputs. -/
theorem fen_error_message_has_prefix :
    errOf (fenToGameState "") = some msgParts ∧
    msgParts ≠ "must have 6 space-separated parts" ∧
    errOf (fenToGameState "8/8/8/8 w - - 0 1") = some msgRows ∧
    msgRows ≠ "must have 8 rows" := by decide

/-- Every character the fueled digit renderer emits is a decimal digit. -/
theorem natToCharsAux_mem (fuel : Nat) :
    ∀ (n : Nat), ∀ c ∈ natToCharsAux fuel n, ∃ d, d < 10 ∧ c = Char.ofNat (48 + d) := by
  induction fuel with
  | zero => intro n c hc; simp [natToCharsAux] at hc
  | succ fuel ih =>
    intro n c hc
    unfold natToCharsAux at hc
    split at hc
    · next h => simp at hc; exact ⟨n, h, hc⟩
    · rcases List.mem_append.mp hc with h1 | h2
      · exact ih (n / 10) c h1
      · simp at h2; exact ⟨n % 10, Nat.mod_lt _ (by omega), h2⟩

/-- Every character of a rendered natural number is a decimal digit. -/
theorem natToChars_mem (n : Nat) :
    ∀ c ∈ natToChars n, ∃ d, d < 10 ∧ c = Char.ofNat (48 + d) :=
  natToCharsAux_mem (n + 1) n

/-- Decimal digit characters are not whitespace and not the slash. -/
theorem digit_char_props (d : Nat) (h : d < 10) :
    (Char.ofNat (48 + d)).isWhitespace = false ∧ Char.ofNat (48 + d) ≠ Char.ofNat 47 := by
  interval_cases d <;> exact ⟨rfl, by decide⟩

/-- Rendered numbers contain no whitespace. -/
theorem natToChars_noWs (n : Nat) : ∀ c ∈ natToChars n, c.isWhitespace = false := by
  intro c hc
  obtain ⟨d, hd, rfl⟩ := natToChars_mem n c hc
  exact (digit_char_props d hd).1

/-- Rendered numbers are nonempty. -/
theorem natToChars_ne_nil (n : Nat) : natToChars n ≠ [] := by
  unfold natToChars natToCharsAux
  split
  · simp
  · simp

/-- Rendered integers contain no whitespace. -/
theorem intToChars_noWs (n : Int) : ∀ c ∈ intToChars n, c.isWhitespace = false := by
  unfold intToChars
  split
  · intro c hc
    rcases List.mem_cons.mp hc with rfl | h
    · decide
    · exact natToChars_noWs _ c h
  · exact natToChars_noWs _

/-- Rendered integers are nonempty. -/
theorem intToChars_ne_nil (n : Int) : intToChars n ≠ [] := by
  unfold intToChars
  split
  · simp
  · exact natToChars_ne_nil _

/-- FEN piece letters are not whitespace and not the slash. -/
theorem pieceToFenChar_props (pc : Piece) :
    (pieceToFenChar pc).isWhitespace = false ∧ pieceToFenChar pc ≠ Char.ofNat 47 := by
  obtain ⟨t, c, hm⟩ := pc
  have h : pieceToFenChar ⟨t, c, hm⟩ = pieceToFenChar ⟨t, c, false⟩ := rfl
  rw [h]
  cases t <;> cases c <;> decide

/-- Encoded ranks contain neither whitespace nor slashes. -/
theorem rowToFen_noWs (w : List (Option Piece)) :
    ∀ (count : Nat), ∀ c ∈ rowToFen w count,
      c.isWhitespace = false ∧ c ≠ Char.ofNat 47 := by
  induction w with
  | nil =>
    intro count c hc
    unfold rowToFen at hc
    split at hc
    · obtain ⟨d, hd, rfl⟩ := natToChars_mem _ c hc
      exact digit_char_props d hd
    · simp at hc
  | cons cell rest ih =>
    intro count c hc
    match cell with
    | some piece =>
      unfold rowToFen at hc
      rcases List.mem_append.mp hc with h1 | h2
      · split at h1
        · obtain ⟨d, hd, rfl⟩ := natToChars_mem _ c h1
          exact digit_char_props d hd
        · simp at h1
      · rcases List.mem_cons.mp h2 with rfl | h3
        · exact pieceToFenChar_props piece
        · exact ih 0 c h3
    | none =>
      unfold rowToFen at hc
      exact ih (count + 1) c hc

/-- An encoded rank with at least one cell or a pending run is nonempty. -/
theorem rowToFen_ne_nil (w : List (Option Piece)) :
    ∀ (count : Nat), 0 < count + w.length → rowToFen w count ≠ [] := by
  induction w with
  | nil =>
    intro count h
    simp only [List.length_nil, Nat.add_zero] at h
    unfold rowToFen
    rw [if_pos h]
    exact natToChars_ne_nil _
  | cons cell rest ih =>
    intro count h
    match cell with
    | some piece =>
      unfold rowToFen
      intro hnil
      rcases List.append_eq_nil.mp hnil with ⟨_, h2⟩
      simp at h2
    | none =>
      unfold rowToFen
      exact ih (count + 1) (by omega)

/-- Joining slash-free, whitespace-free ranks stays whitespace-free. -/
theorem joinSlash_noWs (ls : List (List Char))
    (h : ∀ l ∈ ls, ∀ c ∈ l, c.isWhitespace = false) :
    ∀ c ∈ joinSlash ls, c.isWhitespace = false := by
  induction ls with
  | nil => intro c hc; simp [joinSlash] at hc
  | cons r rest ih =>
    intro c hc
    match rest with
    | [] => exact h r (by simp) c hc
    | r2 :: rest2 =>
      unfold joinSlash at hc
      rcases List.mem_append.mp hc with h1 | h2
      · exact h r (by simp) c h1
      · rcases List.mem_cons.mp h2 with rfl | h3
        · decide
        · exact ih (fun l hl => h l (List.mem_cons_of_mem _ hl)) c h3

/-- The placement field contains no whitespace. -/
theorem boardToFenPieces_noWs (b : Board) :
    ∀ c ∈ boardToFenPieces b, c.isWhitespace = false := by
  unfold boardToFenPieces
  apply joinSlash_noWs
  intro l hl c hc
  obtain ⟨row, _, rfl⟩ := List.mem_map.mp hl
  exact (rowToFen_noWs _ 0 c hc).1

/-- The placement field is nonempty. -/
theorem boardToFenPieces_ne_nil (b : Board) : boardToFenPieces b ≠ [] := by
  unfold boardToFenPieces
  rw [show List.range 8 = [0, 1, 2, 3, 4, 5, 6, 7] from rfl]
  simp only [List.map_cons, List.map_nil]
  unfold joinSlash
  simp

/-- The dash fallback keeps the castling-rights field nonempty. -/
theorem ite_isEmpty_ne_nil (l : List Char) :
    (if l.isEmpty = true then [Char.ofNat 45] else l) ≠ [] := by
  by_cases h : l.isEmpty = true
  · simp [h]
  · rw [if_neg h]
    simpa using h

/-- Members of the dash-defaulted field are the dash or field members. -/
theorem mem_ite_isEmpty {l : List Char} {c : Char}
    (h : c ∈ (if l.isEmpty = true then [Char.ofNat 45] else l)) :
    c = Char.ofNat 45 ∨ c ∈ l := by
  split at h
  · simp at h
    exact Or.inl h
  · exact Or.inr h

/-- A member of a conditional singleton is its element. -/
theorem mem_ite_singleton {P : Prop} [Decidable P] {x c : Char}
    (h : c ∈ (if P then [x] else ([] : List Char))) : c = x := by
  split at h
  · simpa using h
  · simp at h

/-- The castling-rights field is nonempty. -/
theorem getCastlingRights_ne_nil (gs : GameState) : getCastlingRights gs ≠ [] := by
  simp only [getCastlingRights]
  exact ite_isEmpty_ne_nil _

/-- The castling-rights field contains no whitespace. -/
theorem getCastlingRights_noWs (gs : GameState) :
    ∀ c ∈ getCastlingRights gs, c.isWhitespace = false := by
  simp only [getCastlingRights]
  intro c hc
  rcases mem_ite_isEmpty hc with rfl | h
  · decide
  · rcases List.mem_append.mp h with h1 | h4
    · rcases List.mem_append.mp h1 with h2 | h3
      · rcases List.mem_append.mp h2 with h5 | h6
        · rw [mem_ite_singleton h5]; decide
        · rw [mem_ite_singleton h6]; decide
      · rw [mem_ite_singleton h3]; decide
    · rw [mem_ite_singleton h4]; decide

/-- The en-passant field is nonempty. -/
theorem getEnPassantTarget_ne_nil (gs : GameState) : getEnPassantTarget gs ≠ [] := by
  simp only [getEnPassantTarget]
  split
  · simp
  · split
    · simp
    · simp

/-- The en-passant field contains no whitespace when the last history entry is sane. -/
theorem getEnPassantTarget_noWs (gs : GameState) (hsane : lastMoveSane gs = true) :
    ∀ c ∈ getEnPassantTarget gs, c.isWhitespace = false := by
  simp only [getEnPassantTarget]
  intro c hc
  split at hc
  · rcases List.mem_cons.mp hc with rfl | h
    · decide
    · simp at h
  · next lm heq =>
    split at hc
    · next hpawn =>
      unfold lastMoveSane at hsane
      rw [heq] at hsane
      have hpawn2 := hpawn
      simp only [Bool.and_eq_true, decide_eq_true_eq] at hpawn2
      have hsane2 : (¬lm.piece.type = PieceType.pawn ∨
          ¬lm.special = some SpecialMove.twoSquareAdvance) ∨
          isValidPosition lm.toPos = true := by simpa using hsane
      have hvalid : isValidPosition lm.toPos = true := by
        rcases hsane2 with (h | h) | h
        · exact absurd hpawn2.1 h
        · exact absurd hpawn2.2 h
        · exact h
      have hbounds := hvalid
      simp only [isValidPosition, Bool.and_eq_true, decide_eq_true_eq] at hbounds
      rcases List.mem_cons.mp hc with rfl | h
      · obtain ⟨⟨⟨h1, h2⟩, h3⟩, h4⟩ := hbounds
        have : (97 + lm.toPos.col).toNat < 105 ∧ 97 ≤ (97 + lm.toPos.col).toNat := by omega
        obtain ⟨hu, hl⟩ := this
        set k := (97 + lm.toPos.col).toNat with hk
        interval_cases k <;> rfl
      · exact intToChars_noWs _ c h
    · rcases List.mem_cons.mp hc with rfl | h
      · decide
      · simp at h

/-- The splitting fold always yields at least one token bucket. -/
theorem foldr_wsSplitAux_shape (l : List Char) :
    ∃ t ts, l.foldr wsSplitAux [[]] = t :: ts := by
  induction l with
  | nil => exact ⟨[], [], rfl⟩
  | cons c rest ih =>
    obtain ⟨t, ts, ht⟩ := ih
    rw [List.foldr_cons, ht]
    unfold wsSplitAux
    split
    · exact ⟨[], t :: ts, rfl⟩
    · exact ⟨c :: t, ts, rfl⟩

/-- Folding non-whitespace characters prepends them to the first bucket. -/
theorem foldr_wsSplitAux_nonws (xs : List Char) (t : List Char) (ts : List (List Char))
    (h : ∀ c ∈ xs, c.isWhitespace = false) :
    xs.foldr wsSplitAux (t :: ts) = (xs ++ t) :: ts := by
  induction xs with
  | nil => rfl
  | cons c rest ih =>
    rw [List.foldr_cons, ih (fun x hx => h x (List.mem_cons_of_mem c hx))]
    unfold wsSplitAux
    rw [if_neg (by simp [h c (List.mem_cons_self c rest)])]
    rfl


/-- Splitting peels one nonempty whitespace-free token ahead of a space. -/
theorem wsSplit_token (xs rest : List Char) (hne : xs ≠ [])
    (h : ∀ c ∈ xs, c.isWhitespace = false) :
    wsSplit (xs ++ ' ' :: rest) = xs :: wsSplit rest := by
  unfold wsSplit
  rw [List.foldr_append]
  obtain ⟨t, ts, ht⟩ := foldr_wsSplitAux_shape rest
  rw [List.foldr_cons, ht]
  have hsp : wsSplitAux ' ' (t :: ts) = [] :: t :: ts := by
    unfold wsSplitAux
    rw [if_pos (by decide)]
  rw [hsp, foldr_wsSplitAux_nonws xs [] (t :: ts) h, List.append_nil]
  simp [hne]

/-- A nonempty whitespace-free list splits into itself alone. -/
theorem wsSplit_last (xs : List Char) (hne : xs ≠ [])
    (h : ∀ c ∈ xs, c.isWhitespace = false) :
    wsSplit xs = [xs] := by
  unfold wsSplit
  rw [foldr_wsSplitAux_nonws xs [] [] h, List.append_nil]
  simp [hne]

/-- The characters of the produced FEN string. -/
theorem string_toList_fenChars (gs : GameState) :
    (gameStateToFen gs).toList = fenChars gs := rfl

/-- Under a sane last history entry, the produced FEN splits into exactly the six fields it was built from. -/
theorem wsSplit_fenChars (gs : GameState) (hsane : lastMoveSane gs = true) :
    wsSplit (fenChars gs) =
      [boardToFenPieces gs.board,
       if gs.currentTurn = .white then ['w'] else ['b'],
       getCastlingRights gs,
       getEnPassantTarget gs,
       ['0'],
       natToChars (gs.moveHistory.length / 2 + 1)] := by
  unfold fenChars
  rw [wsSplit_token _ _ (boardToFenPieces_ne_nil gs.board) (boardToFenPieces_noWs gs.board)]
  rw [wsSplit_token _ _ (by split <;> simp) (by split <;> (intro c hc; simp at hc; subst hc; decide))]
  rw [wsSplit_token _ _ (getCastlingRights_ne_nil gs) (getCastlingRights_noWs gs)]
  rw [wsSplit_token _ _ (getEnPassantTarget_ne_nil gs) (getEnPassantTarget_noWs gs hsane)]
  rw [wsSplit_token _ _ (by simp) (by intro c hc; simp at hc; subst hc; decide)]
  rw [wsSplit_last _ (natToChars_ne_nil _) (natToChars_noWs _)]

/-- C9 (amended): for every game state (whose last history entry, when it is a
pawn two-square advance, has an on-board destination — true of every entry the
engine appends), the fifth whitespace-separated field of `gameStateToFen` is
the constant `"0"`: the source hardcodes the halfmove clock ("simplified to
0") and consults neither an explicit field (the state has none) nor the move
history. -/
theorem gameStateToFen_halfmove_always_zero (gameState : GameState)
    (hsane : lastMoveSane gameState = true) :
    (wsSplit (gameStateToFen gameState).toList).get? 4 = some ['0'] := by
  rw [string_toList_fenChars, wsSplit_fenChars gameState hsane]
  rfl

/-- C9 witness: the initial position's fifth FEN field is "0". -/
theorem gameStateToFen_halfmove_always_zero_witness :
    (wsSplit (gameStateToFen initGameState).toList).get? 4 = some ['0'] :=
  gameStateToFen_halfmove_always_zero initGameState (by decide)

/-- C9 counterexample: after the non-pawn, non-capturing move Ng1-f3 the
spec's walk-back count is 1, yet the fifth field of the produced FEN is still
"0", not the rendering of that count. -/
theorem gameStateToFen_halfmove_ignores_history :
    specHalfmoveClock c9State.moveHistory = 1 ∧
    (wsSplit (gameStateToFen c9State).toList).get? 4 = some ['0'] ∧
    (wsSplit (gameStateToFen c9State).toList).get? 4 ≠
      some (natToChars (specHalfmoveClock c9State.moveHistory)) := by decide

theorem fenCharToPiece_pieceToFenChar (pc : Piece) :
    fenCharToPiece (pieceToFenChar pc) = some (stripHasMoved pc) := by
  obtain ⟨t, c, hm⟩ := pc
  have h1 : pieceToFenChar ⟨t, c, hm⟩ = pieceToFenChar ⟨t, c, false⟩ := rfl
  have h2 : stripHasMoved ⟨t, c, hm⟩ = stripHasMoved ⟨t, c, false⟩ := rfl
  rw [h1, h2]
  cases t <;> cases c <;> decide

theorem pieceToFenChar_not_digit (pc : Piece) :
    validFenDigit (pieceToFenChar pc) = false := by
  obtain ⟨t, c, hm⟩ := pc
  have h1 : pieceToFenChar ⟨t, c, hm⟩ = pieceToFenChar ⟨t, c, false⟩ := rfl
  rw [h1]
  cases t <;> cases c <;> decide

theorem flushDigit (count : Nat) (h1 : 1 ≤ count) (h2 : count ≤ 8) :
    natToChars count = [Char.ofNat (48 + count)] ∧
    validFenDigit (Char.ofNat (48 + count)) = true ∧
    (Char.ofNat (48 + count)).toNat - 48 = count := by
  interval_cases count <;> exact ⟨rfl, rfl, rfl⟩

theorem splitOnChar_ne_nil (sep : Char) (l : List Char) : splitOnChar sep l ≠ [] := by
  induction l with
  | nil => simp [splitOnChar]
  | cons c rest ih =>
    unfold splitOnChar
    split
    · simp
    · cases h : splitOnChar sep rest with
      | nil => exact absurd h ih
      | cons t ts => simp

theorem splitOnChar_token (sep : Char) (xs ys : List Char)
    (h : ∀ c ∈ xs, c ≠ sep) :
    splitOnChar sep (xs ++ sep :: ys) = xs :: splitOnChar sep ys := by
  induction xs with
  | nil => simp [splitOnChar]
  | cons c rest ih =>
    have hc : c ≠ sep := h c (List.mem_cons_self c rest)
    rw [List.cons_append, splitOnChar]
    simp only [ih (fun x hx => h x (List.mem_cons_of_mem c hx)), if_neg hc]

theorem splitOnChar_single (sep : Char) (xs : List Char)
    (h : ∀ c ∈ xs, c ≠ sep) :
    splitOnChar sep xs = [xs] := by
  induction xs with
  | nil => rfl
  | cons c rest ih =>
    have hc : c ≠ sep := h c (List.mem_cons_self c rest)
    rw [splitOnChar]
    simp only [ih (fun x hx => h x (List.mem_cons_of_mem c hx)), if_neg hc]

theorem splitOnChar_joinSlash (rows : List (List Char)) (hne : rows ≠ [])
    (h : ∀ r ∈ rows, ∀ c ∈ r, c ≠ Char.ofNat 47) :
    splitOnChar (Char.ofNat 47) (joinSlash rows) = rows := by
  induction rows with
  | nil => exact absurd rfl hne
  | cons r rest ih =>
    match rest with
    | [] =>
      unfold joinSlash
      exact splitOnChar_single _ r (h r (by simp))
    | r2 :: rest2 =>
      unfold joinSlash
      rw [splitOnChar_token _ r _ (h r (by simp))]
      rw [ih (by simp) (fun l hl => h l (List.mem_cons_of_mem r hl))]

theorem boardGetRC_boardSetRC_ne (b : Board) (r c r2 c2 : Nat) (v : Option Piece)
    (h : r ≠ r2 ∨ c ≠ c2) :
    boardGetRC (boardSetRC b r c v) r2 c2 = boardGetRC b r2 c2 := by
  simp only [boardGetRC, boardSetRC, List.get?_eq_getElem?]
  rcases h with h | h
  · rw [List.getElem?_set_ne h]
  · by_cases hr : r = r2
    · subst hr
      by_cases hlen : r < b.length
      · rw [List.getElem?_set_self (by simpa using hlen)]
        simp only [Option.getD_some]
        rw [List.getElem?_set_ne h]
      · rw [List.set_eq_of_length_le (by omega)]
    · rw [List.getElem?_set_ne hr]

theorem writeRow_other_row (rowIdx : Nat) (w : List (Option Piece)) :
    ∀ (col : Nat) (b : Board) (r2 c2 : Nat), r2 ≠ rowIdx →
      boardGetRC (writeRow rowIdx w col b) r2 c2 = boardGetRC b r2 c2 := by
  induction w with
  | nil => intro col b r2 c2 _; rfl
  | cons cell rest ih =>
    intro col b r2 c2 hr
    match cell with
    | none => exact ih (col + 1) b r2 c2 hr
    | some pc =>
      rw [show writeRow rowIdx (some pc :: rest) col b =
        writeRow rowIdx rest (col + 1)
          (boardSetRC b rowIdx col (some (stripHasMoved pc))) from rfl]
      rw [ih (col + 1) _ r2 c2 hr]
      exact boardGetRC_boardSetRC_ne _ _ _ _ _ _ (Or.inl (fun he => hr he.symm))

theorem writeRow_before (rowIdx : Nat) (w : List (Option Piece)) :
    ∀ (col : Nat) (b : Board) (c2 : Nat), c2 < col →
      boardGetRC (writeRow rowIdx w col b) rowIdx c2 = boardGetRC b rowIdx c2 := by
  induction w with
  | nil => intro col b c2 _; rfl
  | cons cell rest ih =>
    intro col b c2 hc
    match cell with
    | none => exact (ih (col + 1) b c2 (by omega))
    | some pc =>
      rw [show writeRow rowIdx (some pc :: rest) col b =
        writeRow rowIdx rest (col + 1)
          (boardSetRC b rowIdx col (some (stripHasMoved pc))) from rfl]
      rw [ih (col + 1) _ c2 (by omega)]
      exact boardGetRC_boardSetRC_ne _ _ _ _ _ _ (Or.inr (by omega))

theorem writeRow_wf (rowIdx : Nat) (w : List (Option Piece)) :
    ∀ (col : Nat) (b : Board), wellFormedBoard b = true →
      wellFormedBoard (writeRow rowIdx w col b) = true := by
  induction w with
  | nil => intro col b h; exact h
  | cons cell rest ih =>
    intro col b h
    match cell with
    | none => exact ih (col + 1) b h
    | some pc => exact ih (col + 1) _ (wellFormedBoard_boardSetRC _ _ _ _ h)

theorem wellFormed_row_length (b : Board) (r : Nat) (hwf : wellFormedBoard b = true)
    (hr : r < 8) : ((b.get? r).getD []).length = 8 := by
  simp only [wellFormedBoard, Bool.and_eq_true, beq_iff_eq, List.all_eq_true] at hwf
  obtain ⟨hl, hrows⟩ := hwf
  cases hget : b.get? r with
  | none =>
    exact absurd (by simpa [List.get?_eq_getElem?, List.getElem?_eq_none_iff] using hget)
      (by omega)
  | some row0 =>
    have hm : row0 ∈ b := List.get?_mem hget
    simpa using hrows row0 hm

theorem writeRow_read (rowIdx : Nat) (w : List (Option Piece)) :
    ∀ (col : Nat) (b : Board) (c2 : Nat),
      wellFormedBoard b = true → rowIdx < 8 →
      col ≤ c2 → c2 < col + w.length → c2 < 8 →
      boardGetRC (writeRow rowIdx w col b) rowIdx c2 =
        (match w.get? (c2 - col) with
         | some (some pc) => some (stripHasMoved pc)
         | some none => boardGetRC b rowIdx c2
         | none => boardGetRC b rowIdx c2) := by
  induction w with
  | nil =>
    intro col b c2 _ _ h1 h2 _
    simp only [List.length_nil, Nat.add_zero] at h2
    omega
  | cons cell rest ih =>
    intro col b c2 hwf hr h1 h2 h3
    by_cases he : c2 = col
    · subst he
      simp only [Nat.sub_self]
      match cell with
      | none =>
        rw [show writeRow rowIdx (none :: rest) c2 b =
          writeRow rowIdx rest (c2 + 1) b from rfl]
        rw [writeRow_before rowIdx rest (c2 + 1) b c2 (by omega)]
        rfl
      | some pc =>
        rw [show writeRow rowIdx (some pc :: rest) c2 b =
          writeRow rowIdx rest (c2 + 1)
            (boardSetRC b rowIdx c2 (some (stripHasMoved pc))) from rfl]
        rw [writeRow_before rowIdx rest (c2 + 1) _ c2 (by omega)]
        rw [boardGetRC_boardSetRC_self _ _ _ _
          (by simp only [wellFormedBoard, Bool.and_eq_true, beq_iff_eq,
            List.all_eq_true] at hwf; omega)
          (by rw [wellFormed_row_length b rowIdx hwf hr]; omega)]
        rfl
    · have hlt : col < c2 := by omega
      have hsub : c2 - col = (c2 - (col + 1)) + 1 := by omega
      rw [hsub]
      simp only [List.get?_cons_succ]
      match cell with
      | none =>
        rw [show writeRow rowIdx (none :: rest) col b =
          writeRow rowIdx rest (col + 1) b from rfl]
        have := ih (col + 1) b c2 hwf hr (by omega)
          (by simp only [List.length_cons] at h2; omega) h3
        rw [this]
      | some pc =>
        rw [show writeRow rowIdx (some pc :: rest) col b =
          writeRow rowIdx rest (col + 1)
            (boardSetRC b rowIdx col (some (stripHasMoved pc))) from rfl]
        have hwf2 := wellFormedBoard_boardSetRC b rowIdx col (some (stripHasMoved pc)) hwf
        have := ih (col + 1) _ c2 hwf2 hr (by omega)
          (by simp only [List.length_cons] at h2; omega) h3
        rw [this]
        have hne := boardGetRC_boardSetRC_ne b rowIdx col rowIdx c2
          (some (stripHasMoved pc)) (Or.inr (by omega))
        cases hcell : rest.get? (c2 - (col + 1)) with
        | none => simpa [hcell] using hne
        | some cell2 =>
          cases cell2 with
          | none => simpa [hcell] using hne
          | some pc2 => simp [hcell]

theorem parseFenRow_rowToFen (rowIdx : Nat) (w : List (Option Piece)) :
    ∀ (count col : Nat) (b : Board), col + count + w.length ≤ 8 →
      parseFenRow rowIdx (rowToFen w count) col b =
        .ok (writeRow rowIdx w (col + count) b) := by
  induction w with
  | nil =>
    intro count col b hb
    simp only [List.length_nil, Nat.add_zero] at hb
    match count with
    | 0 => rfl
    | count + 1 =>
      obtain ⟨hflush, hdig, htn⟩ := flushDigit (count + 1) (by omega) (by omega)
      rw [show rowToFen [] (count + 1) =
        natToChars (count + 1) from by unfold rowToFen; rw [if_pos (by omega)]]
      rw [hflush]
      unfold parseFenRow
      rw [if_pos hdig, htn]
      rfl
  | cons cell rest ih =>
    intro count col b hb
    simp only [List.length_cons] at hb
    match cell with
    | none =>
      rw [show rowToFen (none :: rest) count = rowToFen rest (count + 1) from rfl]
      rw [show writeRow rowIdx (none :: rest) (col + count) b =
        writeRow rowIdx rest (col + count + 1) b from rfl]
      have := ih (count + 1) col b (by omega)
      rw [this, Nat.add_assoc]
    | some pc =>
      rw [show rowToFen (some pc :: rest) count =
        (if count > 0 then natToChars count else []) ++
          pieceToFenChar pc :: rowToFen rest 0 from rfl]
      match count with
      | 0 =>
        simp only [gt_iff_lt, Nat.lt_irrefl, if_false, List.nil_append]
        unfold parseFenRow
        rw [if_neg (by simp [pieceToFenChar_not_digit pc])]
        simp only [fenCharToPiece_pieceToFenChar]
        rw [if_pos (show col < 8 by omega)]
        have := ih 0 (col + 1) (boardSetRC b rowIdx col (some (stripHasMoved pc))) (by omega)
        rw [this]
        rfl
      | count + 1 =>
        obtain ⟨hflush, hdig, htn⟩ := flushDigit (count + 1) (by omega) (by omega)
        rw [if_pos (by omega), hflush]
        rw [show ([Char.ofNat (48 + (count + 1))] ++
          pieceToFenChar pc :: rowToFen rest 0) =
          (Char.ofNat (48 + (count + 1)) :: pieceToFenChar pc :: rowToFen rest 0) from rfl]
        unfold parseFenRow
        rw [if_pos hdig, htn]
        unfold parseFenRow
        rw [if_neg (by simp [pieceToFenChar_not_digit pc])]
        simp only [fenCharToPiece_pieceToFenChar]
        rw [if_pos (show col + (count + 1) < 8 by omega)]
        have := ih 0 (col + (count + 1) + 1)
          (boardSetRC b rowIdx (col + (count + 1)) (some (stripHasMoved pc))) (by omega)
        rw [this]
        rfl

theorem boardGetRC_emptyBoard (r c : Nat) : boardGetRC emptyBoard r c = none := by
  unfold boardGetRC emptyBoard
  simp only [List.get?_eq_getElem?, List.getElem?_replicate]
  by_cases hr : r < 8
  · rw [if_pos hr]
    simp only [Option.getD_some, List.getElem?_replicate]
    by_cases hc : c < 8
    · rw [if_pos hc]; rfl
    · rw [if_neg hc]; rfl
  · rw [if_neg hr]; rfl

theorem boardWindowRow_get (b : Board) (row c : Nat) (hc : c < 8) :
    (boardWindowRow b row).get? c = some (boardGetRC b row c) := by
  unfold boardWindowRow
  rw [List.get?_eq_getElem?, List.getElem?_map, List.getElem?_range hc]
  rfl

theorem boardWindowRow_length (b : Board) (row : Nat) :
    (boardWindowRow b row).length = 8 := by
  simp [boardWindowRow]

theorem parseFenRows_encode (orig : Board) :
    ∀ (n k : Nat) (b : Board), k + n ≤ 8 → wellFormedBoard b = true →
      (∀ r c2, k ≤ r → boardGetRC b r c2 = none) →
      ∃ b2,
        parseFenRows ((List.range' k n).map fun r =>
          rowToFen (boardWindowRow orig r) 0) k b = .ok b2 ∧
        (∀ r c2, c2 < 8 → r < k + n →
          (r < k → boardGetRC b2 r c2 = boardGetRC b r c2) ∧
          (k ≤ r → boardGetRC b2 r c2 = (boardGetRC orig r c2).map stripHasMoved)) := by
  intro n
  induction n with
  | zero =>
    intro k b _ _ _
    refine ⟨b, rfl, ?_⟩
    intro r c2 _ hrk
    exact ⟨fun _ => rfl, fun hk => absurd hrk (by omega)⟩
  | succ n ih =>
    intro k b hkn hwf hempty
    rw [List.range'_succ, List.map_cons]
    have hA := parseFenRow_rowToFen k (boardWindowRow orig k) 0 0 b
      (by rw [boardWindowRow_length])
    unfold parseFenRows
    rw [hA]
    have hwf1 : wellFormedBoard (writeRow k (boardWindowRow orig k) 0 b) = true :=
      writeRow_wf _ _ _ _ hwf
    have hempty1 : ∀ r c2, k + 1 ≤ r →
        boardGetRC (writeRow k (boardWindowRow orig k) 0 b) r c2 = none := by
      intro r c2 hkr
      rw [writeRow_other_row _ _ _ _ _ _ (by omega)]
      exact hempty r c2 (by omega)
    obtain ⟨b2, hparse, hprops⟩ := ih (k + 1)
      (writeRow k (boardWindowRow orig k) 0 b) (by omega) hwf1 hempty1
    refine ⟨b2, hparse, ?_⟩
    intro r c2 hc2 hrn
    constructor
    · intro hrk
      have h1 := (hprops r c2 hc2 (by omega)).1 (by omega)
      rw [h1, writeRow_other_row _ _ _ _ _ _ (by omega)]
    · intro hkr
      by_cases hrk : r = k
      · subst hrk
        have h1 := (hprops r c2 hc2 (by omega)).1 (by omega)
        rw [h1]
        have hread := writeRow_read r (boardWindowRow orig r) 0 b c2 hwf (by omega)
          (by omega) (by rw [boardWindowRow_length]; omega) hc2
        rw [hread]
        rw [show c2 - 0 = c2 from rfl, boardWindowRow_get orig r c2 hc2]
        cases horig : boardGetRC orig r c2 with
        | some pc => rfl
        | none =>
          rw [hempty r c2 (by omega)]
          rfl
      · exact (hprops r c2 hc2 (by omega)).2 (by omega)

theorem fenPiecesToBoard_encode (board : Board) :
    ∃ b2, fenPiecesToBoard (boardToFenPieces board) = .ok b2 ∧
      ∀ r c, r < 8 → c < 8 →
        boardGetRC b2 r c = (boardGetRC board r c).map stripHasMoved := by
  have hslash : ∀ row ∈ (List.range 8).map
      (fun r => rowToFen (boardWindowRow board r) 0),
      ∀ c ∈ row, c ≠ Char.ofNat 47 := by
    intro row hrow c hc
    simp only [List.mem_map] at hrow
    obtain ⟨r, _, hr⟩ := hrow
    subst hr
    exact (rowToFen_noWs _ 0 c hc).2
  have henc := parseFenRows_encode board 8 0 emptyBoard (by omega) (by decide)
    (fun r c2 _ => boardGetRC_emptyBoard r c2)
  obtain ⟨b2, hparse, hprops⟩ := henc
  refine ⟨b2, ?_, ?_⟩
  · simp only [fenPiecesToBoard, boardToFenPieces]
    rw [splitOnChar_joinSlash _ (by simp) hslash]
    rw [if_neg (by simp)]
    rw [List.range_eq_range']
    exact hparse
  · intro r c hr hc
    exact (hprops r c hc (by omega)).2 (by omega)

theorem fenToGameState_gameStateToFen (gs : GameState)
    (hsane : lastMoveSane gs = true) :
    ∃ gs2, fenToGameState (gameStateToFen gs) = .ok gs2 ∧
      ∀ r c, r < 8 → c < 8 →
        boardGetRC gs2.board r c = (boardGetRC gs.board r c).map stripHasMoved := by
  obtain ⟨b2, hdec, hprops⟩ := fenPiecesToBoard_encode gs.board
  unfold fenToGameState
  rw [string_toList_fenChars, wsSplit_fenChars gs hsane]
  simp only []
  rw [hdec]
  exact ⟨_, rfl, hprops⟩

/-- C6 counterexample: encoding loses the `hasMoved` flag.  A lone white king
that has moved serializes to a FEN holding no flag, and decoding it yields the
king with `hasMoved = false`, so the decoded board does not reproduce the
original exactly. -/
theorem fen_round_trip_loses_hasMoved :
    gameStateToFen movedKingState = "8/8/8/8/8/8/8/4K3 w - - 0 1" ∧
    boardGetRC movedKingState.board 7 4 =
      some { type := .king, color := .white, hasMoved := true } ∧
    (fenToGameState (gameStateToFen movedKingState)).toOption.map
        (fun g => boardGetRC g.board 7 4) =
      some (some { type := .king, color := .white, hasMoved := false }) := by
  decide

/-- C6 (amended): `gameStateToFen initGameState` is the standard initial FEN,
and for every game state whose last history entry, when a pawn two-square
advance, has an on-board destination, decoding the encoded state succeeds and
reproduces the board square by square up to clearing the `hasMoved` flag
(exact reproduction fails; see the counterexample). -/
theorem fen_round_trip (gameState : GameState)
    (hsane : lastMoveSane gameState = true) :
    gameStateToFen initGameState =
      "rnbqkbnr/pppppppp/8/8/8/8/PPPPPPPP/RNBQKBNR w KQkq - 0 1" ∧
    ∃ gs2, fenToGameState (gameStateToFen gameState) = .ok gs2 ∧
      ∀ r c, r < 8 → c < 8 →
        boardGetRC gs2.board r c =
          (boardGetRC gameState.board r c).map stripHasMoved :=
  ⟨by decide, fenToGameState_gameStateToFen gameState hsane⟩

/-- Witness for C6 at the initial state. -/
theorem fen_round_trip_witness :
    lastMoveSane initGameState = true ∧
    (gameStateToFen initGameState =
      "rnbqkbnr/pppppppp/8/8/8/8/PPPPPPPP/RNBQKBNR w KQkq - 0 1" ∧
    ∃ gs2, fenToGameState (gameStateToFen initGameState) = .ok gs2 ∧
      ∀ r c, r < 8 → c < 8 →
        boardGetRC gs2.board r c =
          (boardGetRC initGameState.board r c).map stripHasMoved) :=
  ⟨by decide, fen_round_trip initGameState (by decide)⟩

theorem list_find?_congr {α : Type} (l : List α) (f g : α → Bool)
    (h : ∀ x ∈ l, f x = g x) : l.find? f = l.find? g := by
  induction l with
  | nil => rfl
  | cons a t ih =>
    simp only [List.find?]
    rw [h a (List.mem_cons_self a t)]
    cases hga : g a with
    | true => rfl
    | false => exact ih fun x hx => h x (List.mem_cons_of_mem a hx)

theorem list_any_congr {α : Type} (l : List α) (f g : α → Bool)
    (h : ∀ x ∈ l, f x = g x) : l.any f = l.any g := by
  induction l with
  | nil => rfl
  | cons a t ih =>
    simp only [List.any_cons]
    rw [h a (List.mem_cons_self a t), ih fun x hx => h x (List.mem_cons_of_mem a hx)]

theorem boardSetRC_boardSetRC (b : Board) (r c : Nat) (x y : Option Piece) :
    boardSetRC (boardSetRC b r c x) r c y = boardSetRC b r c y := by
  unfold boardSetRC
  by_cases hr : r < b.length
  · simp only [List.get?_eq_getElem?]
    rw [List.getElem?_set_self (by simpa using hr)]
    simp only [Option.getD_some]
    rw [List.set_set, List.set_set]
  · rw [List.set_eq_of_length_le (Nat.le_of_not_lt hr)]

theorem placePiece_clearPosition (b : Board) (p : Position) (piece : Piece) :
    placePiece (clearPosition b p) p piece = placePiece b p piece := by
  unfold placePiece clearPosition
  by_cases hv : isValidPosition p = true
  · rw [if_pos hv, if_pos hv, if_pos hv, boardSetRC_boardSetRC]
  · rw [if_neg hv, if_neg hv, if_neg hv]

theorem simulateMoveBoard_eq_of_not_ep (board : Board) (pos : Position) (mp : Piece)
    (m : Move) (h : ¬m.special = some SpecialMove.enPassant) :
    simulateMoveBoard board pos mp m = stalemateSimBoard board pos mp m := by
  simp only [simulateMoveBoard, stalemateSimBoard, cloneBoard]
  rw [if_neg h]
  cases hg : getPieceAt m.toPos (clearPosition board pos) with
  | none => rfl
  | some x => exact placePiece_clearPosition _ _ _

theorem isPlayerInCheck_turn (gs : GameState) (b : Board) (t c : Color) :
    isPlayerInCheck { gs with board := b, currentTurn := t } c =
      isPlayerInCheck { gs with board := b } c := rfl

theorem wellFormedBoard_cell_bounds (b : Board) (h : wellFormedBoard b = true)
    (r c : Nat) (hr : r < 8) (hc : c < 8) :
    r < b.length ∧ c < ((b.get? r).getD []).length := by
  simp only [wellFormedBoard, Bool.and_eq_true, beq_iff_eq, List.all_eq_true] at h
  obtain ⟨hlen, hrows⟩ := h
  refine ⟨by omega, ?_⟩
  have hmem : ((b.get? r).getD []) ∈ b := by
    have : b.get? r = some (b.get ⟨r, by omega⟩) := List.get?_eq_get (by omega)
    rw [this, Option.getD_some]
    exact List.get_mem b _ _
  have := hrows _ hmem
  omega

theorem bishopWalk_special (board : Board) (col : Color) (fp : Position) (dC dR : Int) :
    ∀ (fuel : Nat) (cur : Position) (m : Move), m ∈ bishopWalk board col fp dC dR fuel cur →
      m.special = none := by
  intro fuel
  induction fuel with
  | zero => intro cur m hm; simp [bishopWalk] at hm
  | succ fuel ih =>
    intro cur m hm
    rw [bishopWalk] at hm
    split at hm
    · split at hm
      · split at hm
        · simp at hm
        · simp only [List.mem_singleton] at hm
          subst hm
          rfl
      · simp only [List.mem_cons] at hm
        rcases hm with hm | hm
        · subst hm; rfl
        · exact ih _ _ hm
    · simp at hm

theorem getMovesInDirection_special (board : Board) (col : Color) (fp : Position)
    (dC dR : Int) :
    ∀ (fuel : Nat) (cur : Position) (m : Move),
      m ∈ getMovesInDirection board col fp dC dR fuel cur → m.special = none := by
  intro fuel
  induction fuel with
  | zero => intro cur m hm; simp [getMovesInDirection] at hm
  | succ fuel ih =>
    intro cur m hm
    rw [getMovesInDirection] at hm
    split at hm
    · split at hm
      · split at hm
        · simp only [List.mem_singleton] at hm
          subst hm
          rfl
        · simp at hm
      · simp only [List.mem_cons] at hm
        rcases hm with hm | hm
        · subst hm; rfl
        · exact ih _ _ hm
    · simp at hm

theorem getBishopMoves_special (p : Position) (gs : GameState) (m : Move)
    (hm : m ∈ getBishopMoves p gs) : m.special = none := by
  unfold getBishopMoves at hm
  split at hm
  · simp at hm
  · split at hm
    · simp at hm
    · simp only [List.mem_flatMap] at hm
      obtain ⟨d, _, hd⟩ := hm
      exact bishopWalk_special _ _ _ _ _ _ _ _ hd

theorem getRookMoves_special (p : Position) (gs : GameState) (m : Move)
    (hm : m ∈ getRookMoves p gs) : m.special = none := by
  unfold getRookMoves at hm
  split at hm
  · simp at hm
  · split at hm
    · simp at hm
    · simp only [List.mem_flatMap] at hm
      obtain ⟨d, _, hd⟩ := hm
      exact getMovesInDirection_special _ _ _ _ _ _ _ _ hd

theorem getQueenMoves_special (p : Position) (gs : GameState) (m : Move)
    (hm : m ∈ getQueenMoves p gs) : m.special = none := by
  unfold getQueenMoves at hm
  split at hm
  · simp at hm
  · split at hm
    · simp at hm
    · simp only [List.mem_flatMap] at hm
      obtain ⟨d, _, hd⟩ := hm
      exact getMovesInDirection_special _ _ _ _ _ _ _ _ hd

theorem getKingMoves_special (p : Position) (gs : GameState) (m : Move)
    (hm : m ∈ getKingMoves p gs) : ¬m.special = some SpecialMove.enPassant := by
  unfold getKingMoves at hm
  split at hm
  · simp at hm
  · split at hm
    · simp at hm
    · simp only [List.mem_append, List.mem_flatMap] at hm
      rcases hm with ⟨d, _, hd⟩ | hm
      · split at hd
        · simp at hd
        · split at hd
          · split at hd
            · simp only [List.mem_singleton] at hd
              subst hd
              simp
            · simp at hd
          · simp only [List.mem_singleton] at hd
            subst hd
            simp
      · split at hm
        · simp at hm
        · simp only [List.mem_append] at hm
          rcases hm with hm | hm <;>
          · split at hm
            · simp only [List.mem_singleton] at hm
              subst hm
              simp
            · simp at hm

theorem getForwardMoves_special (pos : Position) (dir sr prk : Int) (b : Board) (m : Move)
    (hm : m ∈ getForwardMoves pos dir sr prk b) : ¬m.special = some SpecialMove.enPassant := by
  unfold getForwardMoves at hm
  simp only [] at hm
  split at hm
  · split at hm
    · simp only [List.mem_cons, List.mem_singleton] at hm
      rcases hm with hm | hm
      · subst hm
        split <;> simp
      · rcases hm with hm | hm
        · subst hm; simp
        · simp at hm
    · simp only [List.mem_singleton] at hm
      subst hm
      split <;> simp
  · simp at hm

theorem getCaptureMoves_special (pos : Position) (dir : Int) (col : Color) (prk : Int)
    (b : Board) (m : Move) (hm : m ∈ getCaptureMoves pos dir col prk b) :
    ¬m.special = some SpecialMove.enPassant := by
  unfold getCaptureMoves at hm
  simp only [List.mem_flatMap] at hm
  obtain ⟨cp, _, hcp⟩ := hm
  split at hcp
  · split at hcp
    · split at hcp
      · split at hcp
        · simp only [List.mem_singleton] at hcp
          subst hcp
          simp
        · simp only [List.mem_singleton] at hcp
          subst hcp
          simp
      · simp at hcp
    · simp at hcp
  · simp at hcp

theorem getEnPassantMoves_elim (pos : Position) (dir : Int) (col : Color)
    (gs : GameState) (m : Move) (hm : m ∈ getEnPassantMoves pos dir col gs) :
    ∃ lm, gs.moveHistory.getLast? = some lm ∧
      lm.piece.type = PieceType.pawn ∧ ¬lm.piece.color = col ∧
      lm.special = some SpecialMove.twoSquareAdvance ∧
      pos.row = lm.toPos.row ∧ (lm.toPos.col - pos.col).natAbs = 1 ∧
      m = { fromPos := pos, toPos := ⟨lm.toPos.col, pos.row + dir⟩,
            capture := true, special := some SpecialMove.enPassant,
            capturedPiecePosition := some lm.toPos } := by
  unfold getEnPassantMoves at hm
  split at hm
  · simp at hm
  · rename_i lm hlast
    split at hm
    · rename_i hguard
      simp only [Bool.and_eq_true, decide_eq_true_eq, bne_iff_ne, ne_eq,
        beq_iff_eq] at hguard
      simp only [List.mem_singleton] at hm
      exact ⟨lm, hlast, hguard.1.1.1.1.1, hguard.1.1.1.1.2, hguard.1.1.1.2,
        hguard.1.2, hguard.2, hm⟩
    · simp at hm

theorem potentialMovesFor_ep (p : Position) (gs : GameState) (piece : Piece) (m : Move)
    (hpp : getPieceAt p gs.board = some piece)
    (hm : m ∈ potentialMovesFor p gs piece)
    (hsp : m.special = some SpecialMove.enPassant) :
    piece.type = PieceType.pawn ∧
    ∃ lm, gs.moveHistory.getLast? = some lm ∧
      lm.piece.type = PieceType.pawn ∧ ¬lm.piece.color = piece.color ∧
      lm.special = some SpecialMove.twoSquareAdvance ∧
      p.row = lm.toPos.row ∧ (lm.toPos.col - p.col).natAbs = 1 ∧
      m = { fromPos := p,
            toPos := ⟨lm.toPos.col,
              p.row + (if piece.color = Color.white then -1 else 1)⟩,
            capture := true, special := some SpecialMove.enPassant,
            capturedPiecePosition := some lm.toPos } := by
  unfold potentialMovesFor at hm
  cases htype : piece.type with
  | pawn =>
    rw [htype] at hm
    refine ⟨rfl, ?_⟩
    unfold getPawnMoves at hm
    rw [hpp] at hm
    simp only [htype] at hm
    rw [if_neg (by simp)] at hm
    simp only [List.mem_append] at hm
    rcases hm with (hm | hm) | hm
    · exact absurd hsp (getForwardMoves_special _ _ _ _ _ _ hm)
    · exact absurd hsp (getCaptureMoves_special _ _ _ _ _ _ hm)
    · obtain ⟨lm, h1, h2, h3, h4, h5, h6, h7⟩ := getEnPassantMoves_elim _ _ _ _ _ hm
      exact ⟨lm, h1, h2, h3, h4, h5, h6, h7⟩
  | rook =>
    rw [htype] at hm
    exact absurd (getRookMoves_special _ _ _ hm) (by rw [hsp]; simp)
  | knight =>
    rw [htype] at hm
    simp only [List.mem_flatMap] at hm
    obtain ⟨t, _, ht⟩ := hm
    exfalso
    split at ht
    · split at ht
      · simp at ht
      · simp only [List.mem_singleton] at ht
        subst ht
        simp at hsp
    · simp only [List.mem_singleton] at ht
      subst ht
      simp at hsp
  | bishop =>
    rw [htype] at hm
    exact absurd (getBishopMoves_special _ _ _ hm) (by rw [hsp]; simp)
  | queen =>
    rw [htype] at hm
    exact absurd (getQueenMoves_special _ _ _ hm) (by rw [hsp]; simp)
  | king =>
    rw [htype] at hm
    exact absurd hsp (getKingMoves_special _ _ _ hm)

theorem isPathClear_mono (b1 b2 : Board)
    (h : ∀ r c : Nat, boardGetRC b1 r c = none → boardGetRC b2 r c = none)
    (a t : Position) (hcl : isPathClear a t b1 = true) : isPathClear a t b2 = true := by
  unfold isPathClear at hcl ⊢
  rw [List.all_eq_true] at hcl ⊢
  intro q hq
  have h1 := hcl q hq
  rw [Option.isNone_iff_eq_none] at h1 ⊢
  exact h _ _ h1

theorem canPieceAttackPosition_mono (piece : Piece) (pp t : Position) (b1 b2 : Board)
    (h : ∀ r c : Nat, boardGetRC b1 r c = none → boardGetRC b2 r c = none)
    (hat : canPieceAttackPosition piece pp t b1 = true) :
    canPieceAttackPosition piece pp t b2 = true := by
  unfold canPieceAttackPosition at hat ⊢
  cases htype : piece.type
  case pawn => rw [htype] at hat; exact hat
  case knight => rw [htype] at hat; exact hat
  case king => rw [htype] at hat; exact hat
  case rook =>
    rw [htype] at hat
    have hat2 : ((t.row - pp.row == 0 || t.col - pp.col == 0) &&
        isPathClear pp t b1) = true := hat
    show ((t.row - pp.row == 0 || t.col - pp.col == 0) && isPathClear pp t b2) = true
    rw [Bool.and_eq_true] at hat2 ⊢
    exact ⟨hat2.1, isPathClear_mono b1 b2 h _ _ hat2.2⟩
  case bishop =>
    rw [htype] at hat
    have hat2 : (((t.row - pp.row).natAbs == (t.col - pp.col).natAbs) &&
        isPathClear pp t b1) = true := hat
    show (((t.row - pp.row).natAbs == (t.col - pp.col).natAbs) &&
        isPathClear pp t b2) = true
    rw [Bool.and_eq_true] at hat2 ⊢
    exact ⟨hat2.1, isPathClear_mono b1 b2 h _ _ hat2.2⟩
  case queen =>
    rw [htype] at hat
    have hat2 : ((t.row - pp.row == 0 || t.col - pp.col == 0 ||
        (t.row - pp.row).natAbs == (t.col - pp.col).natAbs) &&
        isPathClear pp t b1) = true := hat
    show ((t.row - pp.row == 0 || t.col - pp.col == 0 ||
        (t.row - pp.row).natAbs == (t.col - pp.col).natAbs) &&
        isPathClear pp t b2) = true
    rw [Bool.and_eq_true] at hat2 ⊢
    exact ⟨hat2.1, isPathClear_mono b1 b2 h _ _ hat2.2⟩

theorem canPieceAttackPosition_pawn (piece : Piece) (hp : piece.type = PieceType.pawn)
    (pp t : Position) (b1 b2 : Board) :
    canPieceAttackPosition piece pp t b1 = canPieceAttackPosition piece pp t b2 := by
  unfold canPieceAttackPosition
  rw [hp]

theorem findKingPosition_congr_cells (s1 s2 : GameState) (c : Color)
    (h : ∀ r k : Nat, boardGetRC s1.board r k = boardGetRC s2.board r k ∨
      ((∀ xp, boardGetRC s1.board r k = some xp → ¬xp.type = PieceType.king) ∧
       (∀ xp, boardGetRC s2.board r k = some xp → ¬xp.type = PieceType.king))) :
    findKingPosition s1 c = findKingPosition s2 c := by
  unfold findKingPosition
  apply list_find?_congr
  intro q _
  rcases h q.row.toNat q.col.toNat with heq | ⟨h1, h2⟩
  · rw [heq]
  · cases hx1 : boardGetRC s1.board q.row.toNat q.col.toNat with
    | none =>
      cases hx2 : boardGetRC s2.board q.row.toNat q.col.toNat with
      | none => rfl
      | some xp2 => simp [h2 xp2 hx2]
    | some xp1 =>
      cases hx2 : boardGetRC s2.board q.row.toNat q.col.toNat with
      | none => simp [h1 xp1 hx1]
      | some xp2 =>
        have e1 : (xp1.type == PieceType.king) = false :=
          beq_eq_false_iff_ne.mpr (h1 xp1 hx1)
        have e2 : (xp2.type == PieceType.king) = false :=
          beq_eq_false_iff_ne.mpr (h2 xp2 hx2)
        simp [e1, e2]

theorem isPlayerInCheck_transfer (sS sM sO : GameState) (c : Color) (qr qc : Nat)
    (hfkM : findKingPosition sS c = findKingPosition sM c)
    (hfkO : findKingPosition sS c = findKingPosition sO c)
    (hSM : ∀ r k : Nat, ¬(r = qr ∧ k = qc) →
      boardGetRC sS.board r k = boardGetRC sM.board r k)
    (hSq : boardGetRC sS.board qr qc = boardGetRC sO.board qr qc)
    (hqpawn : ∀ xp, boardGetRC sO.board qr qc = some xp → xp.type = PieceType.pawn)
    (hMq : boardGetRC sM.board qr qc = none)
    (hO : isPlayerInCheck sO c = false) (hM : isPlayerInCheck sM c = false) :
    isPlayerInCheck sS c = false := by
  have hnone : ∀ r k : Nat, boardGetRC sS.board r k = none →
      boardGetRC sM.board r k = none := by
    intro r k h0
    by_cases hrk : r = qr ∧ k = qc
    · obtain ⟨rfl, rfl⟩ := hrk
      exact hMq
    · rw [← hSM r k hrk]
      exact h0
  unfold isPlayerInCheck at hO hM ⊢
  rw [← hfkM] at hM
  rw [← hfkO] at hO
  cases hk : findKingPosition sS c with
  | none => rfl
  | some kp =>
    rw [hk] at hM hO
    have hM2 := List.any_eq_false.mp hM
    have hO2 := List.any_eq_false.mp hO
    refine List.any_eq_false.mpr ?_
    intro sq hsq hcontra
    have hc2 : (match boardGetRC sS.board sq.row.toNat sq.col.toNat with
        | some piece => piece.color == oppositeColor c &&
            canPieceAttackPosition piece sq kp sS.board
        | none => false) = true := hcontra
    by_cases hq : sq.row.toNat = qr ∧ sq.col.toNat = qc
    · obtain ⟨h1, h2⟩ := hq
      rw [h1, h2, hSq] at hc2
      have hOx : ¬(match boardGetRC sO.board sq.row.toNat sq.col.toNat with
          | some piece => piece.color == oppositeColor c &&
              canPieceAttackPosition piece sq kp sO.board
          | none => false) = true := hO2 sq hsq
      rw [h1, h2] at hOx
      cases hX : boardGetRC sO.board qr qc with
      | none =>
        rw [hX] at hc2
        simp at hc2
      | some xp =>
        rw [hX] at hc2 hOx
        have hc3 : (xp.color == oppositeColor c &&
            canPieceAttackPosition xp sq kp sS.board) = true := hc2
        have hOx2 : ¬(xp.color == oppositeColor c &&
            canPieceAttackPosition xp sq kp sO.board) = true := hOx
        rw [canPieceAttackPosition_pawn xp (hqpawn xp hX) sq kp sS.board sO.board]
          at hc3
        exact hOx2 hc3
    · rw [hSM _ _ hq] at hc2
      have hMx : ¬(match boardGetRC sM.board sq.row.toNat sq.col.toNat with
          | some piece => piece.color == oppositeColor c &&
              canPieceAttackPosition piece sq kp sM.board
          | none => false) = true := hM2 sq hsq
      cases hP : boardGetRC sM.board sq.row.toNat sq.col.toNat with
      | none =>
        rw [hP] at hc2
        simp at hc2
      | some pc2 =>
        rw [hP] at hc2 hMx
        have hc3 : (pc2.color == oppositeColor c &&
            canPieceAttackPosition pc2 sq kp sS.board) = true := hc2
        have hMx2 : ¬(pc2.color == oppositeColor c &&
            canPieceAttackPosition pc2 sq kp sM.board) = true := hMx
        rw [Bool.and_eq_true] at hc3
        exact hMx2 (by
          rw [Bool.and_eq_true]
          exact ⟨hc3.1,
            canPieceAttackPosition_mono pc2 sq kp sS.board sM.board hnone hc3.2⟩)

theorem getPieceAt_valid (pos : Position) (b : Board) (h : isValidPosition pos = true) :
    getPieceAt pos b = boardGetRC b pos.row.toNat pos.col.toNat := by
  unfold getPieceAt
  rw [if_pos h]

theorem getPieceAt_invalid (pos : Position) (b : Board) (h : ¬isValidPosition pos = true) :
    getPieceAt pos b = none := by
  unfold getPieceAt
  rw [if_neg h]

theorem clearPosition_valid (b : Board) (pos : Position) (h : isValidPosition pos = true) :
    clearPosition b pos = boardSetRC b pos.row.toNat pos.col.toNat none := by
  unfold clearPosition
  rw [if_pos h]

theorem clearPosition_invalid (b : Board) (pos : Position)
    (h : ¬isValidPosition pos = true) : clearPosition b pos = b := by
  unfold clearPosition
  rw [if_neg h]

theorem placePiece_valid (b : Board) (pos : Position) (pc : Piece)
    (h : isValidPosition pos = true) :
    placePiece b pos pc = boardSetRC b pos.row.toNat pos.col.toNat (some pc) := by
  unfold placePiece
  rw [if_pos h]

theorem placePiece_invalid (b : Board) (pos : Position) (pc : Piece)
    (h : ¬isValidPosition pos = true) : placePiece b pos pc = b := by
  unfold placePiece
  rw [if_neg h]

theorem ne_pair {a b x y : Nat} (h : ¬(a = x ∧ b = y)) : a ≠ x ∨ b ≠ y := by
  by_cases h1 : a = x
  · right
    intro h2
    exact h ⟨h1, h2⟩
  · left
    exact h1

theorem stalemate_resim_ep (gs : GameState) (p : Position) (piece : Piece) (m : Move)
    (hwf : wellFormedBoard gs.board = true)
    (hep : enPassantConsistent gs = true)
    (hchk : isPlayerInCheck gs piece.color = false)
    (hv : isValidPosition p = true)
    (hpp : getPieceAt p gs.board = some piece)
    (hpot : m ∈ potentialMovesFor p gs piece)
    (hfil : isPlayerInCheck
      { gs with board := simulateMoveBoard gs.board p piece m } piece.color = false)
    (hsp : m.special = some SpecialMove.enPassant) :
    isPlayerInCheck
      { gs with board := stalemateSimBoard gs.board p piece m } piece.color = false := by
  obtain ⟨htype, lm, hlast, hlmt, hlmc, hlms, hrow, hcol1, hmeq⟩ :=
    potentialMovesFor_ep p gs piece m hpp hpot hsp
  have htoPos : m.toPos =
      ⟨lm.toPos.col, p.row + (if piece.color = Color.white then -1 else 1)⟩ := by
    rw [hmeq]
  have hcpp : m.capturedPiecePosition = some lm.toPos := by rw [hmeq]
  have htrow : m.toPos.row = p.row + (if piece.color = Color.white then -1 else 1) := by
    rw [htoPos]
  have htcol : m.toPos.col = lm.toPos.col := by rw [htoPos]
  have hdisj : m.toPos.row = p.row - 1 ∨ m.toPos.row = p.row + 1 := by
    cases hc : piece.color
    · rw [hc] at htrow
      simp only [reduceIte] at htrow
      left
      omega
    · rw [hc] at htrow
      rw [if_neg (by decide)] at htrow
      right
      omega
  have hv2 : 0 ≤ p.col ∧ p.col < 8 ∧ 0 ≤ p.row ∧ p.row < 8 := by
    simpa [isValidPosition, and_assoc] using hv
  -- the en-passant consistency facts for the last move
  unfold enPassantConsistent at hep
  rw [hlast] at hep
  have hep0 : (if lm.piece.type = PieceType.pawn &&
      lm.special = some SpecialMove.twoSquareAdvance then
      (match getPieceAt lm.toPos gs.board with
       | some pc => pc.type == PieceType.pawn && pc.color == lm.piece.color
       | none => true) &&
      (getPieceAt
        ⟨lm.toPos.col, lm.toPos.row + (if lm.piece.color = Color.white then 1 else -1)⟩
        gs.board).isNone
    else true) = true := hep
  split at hep0
  case isFalse hcond =>
    exact absurd (by rw [hlmt, hlms]; decide) hcond
  case isTrue hcond =>
  rw [Bool.and_eq_true] at hep0
  obtain ⟨hep1, hep2⟩ := hep0
  -- the consistency target square is exactly the move destination
  have hdir2 : lm.toPos.row + (if lm.piece.color = Color.white then (1 : Int) else -1) =
      p.row + (if piece.color = Color.white then -1 else 1) := by
    rw [← hrow]
    cases hc1 : piece.color <;> cases hc2 : lm.piece.color <;> simp_all
  have hposeq : (⟨lm.toPos.col,
      lm.toPos.row + (if lm.piece.color = Color.white then 1 else -1)⟩ : Position) =
      m.toPos := by
    rw [htoPos, hdir2]
  rw [hposeq] at hep2
  rw [Option.isNone_iff_eq_none] at hep2
  by_cases hqv : isValidPosition lm.toPos = true
  · -- the captured square is on the board
    have hqv2 : 0 ≤ lm.toPos.col ∧ lm.toPos.col < 8 ∧ 0 ≤ lm.toPos.row ∧
        lm.toPos.row < 8 := by
      simpa [isValidPosition, and_assoc] using hqv
    have hqpawn2 : ∀ xp, boardGetRC gs.board lm.toPos.row.toNat lm.toPos.col.toNat =
        some xp → xp.type = PieceType.pawn := by
      intro xp hxp
      rw [getPieceAt_valid _ _ hqv, hxp] at hep1
      have hep1b : (xp.type == PieceType.pawn && xp.color == lm.piece.color) = true :=
        hep1
      rw [Bool.and_eq_true] at hep1b
      exact eq_of_beq hep1b.1
    have hQPc : lm.toPos.col.toNat ≠ p.col.toNat := by omega
    have hwf1 : wellFormedBoard (boardSetRC gs.board p.row.toNat p.col.toNat none) = true :=
      wellFormedBoard_boardSetRC _ _ _ _ hwf
    have hbP := wellFormedBoard_cell_bounds _ hwf p.row.toNat p.col.toNat
      (by omega) (by omega)
    have hbQ1 := wellFormedBoard_cell_bounds _ hwf1 lm.toPos.row.toNat
      lm.toPos.col.toNat (by omega) (by omega)
    by_cases htv : isValidPosition m.toPos = true
    · -- the en-passant destination is on the board
      have htv2 : 0 ≤ m.toPos.col ∧ m.toPos.col < 8 ∧ 0 ≤ m.toPos.row ∧
          m.toPos.row < 8 := by simpa [isValidPosition, and_assoc] using htv
      have hTPr : m.toPos.row.toNat ≠ p.row.toNat := by
        rcases hdisj with hd | hd <;> omega
      have hQTr : lm.toPos.row.toNat ≠ m.toPos.row.toNat := by
        rcases hdisj with hd | hd <;> omega
      have hwf2 : wellFormedBoard (boardSetRC (boardSetRC gs.board p.row.toNat p.col.toNat none) lm.toPos.row.toNat lm.toPos.col.toNat none) = true :=
        wellFormedBoard_boardSetRC _ _ _ _ hwf1
      have hbT1 := wellFormedBoard_cell_bounds _ hwf1 m.toPos.row.toNat
        m.toPos.col.toNat (by omega) (by omega)
      have hbT2 := wellFormedBoard_cell_bounds _ hwf2 m.toPos.row.toNat
        m.toPos.col.toNat (by omega) (by omega)
      have hS : stalemateSimBoard gs.board p piece m = boardSetRC (boardSetRC gs.board p.row.toNat p.col.toNat none) m.toPos.row.toNat m.toPos.col.toNat (some { piece with hasMoved := true }) := by
        simp only [stalemateSimBoard, cloneBoard]
        rw [clearPosition_valid _ _ hv, placePiece_valid _ _ _ htv]
      have hb2 : getPieceAt m.toPos (clearPosition gs.board p) = none := by
        rw [clearPosition_valid _ _ hv, getPieceAt_valid _ _ htv,
          boardGetRC_boardSetRC_ne _ _ _ _ _ _ (Or.inl (Ne.symm hTPr)),
          ← getPieceAt_valid _ _ htv]
        exact hep2
      have hMb : simulateMoveBoard gs.board p piece m = boardSetRC (boardSetRC (boardSetRC gs.board p.row.toNat p.col.toNat none) lm.toPos.row.toNat lm.toPos.col.toNat none) m.toPos.row.toNat m.toPos.col.toNat (some { piece with hasMoved := true }) := by
        simp only [simulateMoveBoard, cloneBoard, hb2, hsp, reduceIte, hcpp]
        rw [clearPosition_valid _ _ hv, clearPosition_valid _ _ hqv,
          placePiece_valid _ _ _ htv]
      have hSM : ∀ r k : Nat, ¬(r = lm.toPos.row.toNat ∧ k = lm.toPos.col.toNat) →
          boardGetRC (boardSetRC (boardSetRC gs.board p.row.toNat p.col.toNat none) m.toPos.row.toNat m.toPos.col.toNat (some { piece with hasMoved := true })) r k = boardGetRC (boardSetRC (boardSetRC (boardSetRC gs.board p.row.toNat p.col.toNat none) lm.toPos.row.toNat lm.toPos.col.toNat none) m.toPos.row.toNat m.toPos.col.toNat (some { piece with hasMoved := true })) r k := by
        intro r k hrk
        by_cases hT : r = m.toPos.row.toNat ∧ k = m.toPos.col.toNat
        · obtain ⟨rfl, rfl⟩ := hT
          rw [boardGetRC_boardSetRC_self _ _ _ _ hbT1.1 hbT1.2,
            boardGetRC_boardSetRC_self _ _ _ _ hbT2.1 hbT2.2]
        · have hor := ne_pair hT
          rw [boardGetRC_boardSetRC_ne _ _ _ _ _ _ (hor.imp Ne.symm Ne.symm),
            boardGetRC_boardSetRC_ne _ _ _ _ _ _ (hor.imp Ne.symm Ne.symm),
            boardGetRC_boardSetRC_ne _ _ _ _ _ _ ((ne_pair hrk).imp Ne.symm Ne.symm)]
      have hSq : boardGetRC (boardSetRC (boardSetRC gs.board p.row.toNat p.col.toNat none) m.toPos.row.toNat m.toPos.col.toNat (some { piece with hasMoved := true })) lm.toPos.row.toNat lm.toPos.col.toNat =
          boardGetRC gs.board lm.toPos.row.toNat lm.toPos.col.toNat := by
        rw [boardGetRC_boardSetRC_ne _ _ _ _ _ _ (Or.inl (Ne.symm hQTr)),
          boardGetRC_boardSetRC_ne _ _ _ _ _ _ (Or.inr (Ne.symm hQPc))]
      have hMq : boardGetRC (boardSetRC (boardSetRC (boardSetRC gs.board p.row.toNat p.col.toNat none) lm.toPos.row.toNat lm.toPos.col.toNat none) m.toPos.row.toNat m.toPos.col.toNat (some { piece with hasMoved := true })) lm.toPos.row.toNat lm.toPos.col.toNat = none := by
        rw [boardGetRC_boardSetRC_ne _ _ _ _ _ _ (Or.inl (Ne.symm hQTr)),
          boardGetRC_boardSetRC_self _ _ _ _ hbQ1.1 hbQ1.2]
      have hfkM : findKingPosition { gs with board := boardSetRC (boardSetRC gs.board p.row.toNat p.col.toNat none) m.toPos.row.toNat m.toPos.col.toNat (some { piece with hasMoved := true }) } piece.color =
          findKingPosition { gs with board := boardSetRC (boardSetRC (boardSetRC gs.board p.row.toNat p.col.toNat none) lm.toPos.row.toNat lm.toPos.col.toNat none) m.toPos.row.toNat m.toPos.col.toNat (some { piece with hasMoved := true }) } piece.color := by
        apply findKingPosition_congr_cells
        intro r k
        by_cases hQ : r = lm.toPos.row.toNat ∧ k = lm.toPos.col.toNat
        · obtain ⟨rfl, rfl⟩ := hQ
          right
          constructor
          · intro xp hxp
            rw [hSq] at hxp
            intro hk
            rw [hqpawn2 xp hxp] at hk
            simp at hk
          · intro xp hxp
            rw [hMq] at hxp
            simp at hxp
        · left
          exact hSM r k hQ
      have hfkO : findKingPosition { gs with board := boardSetRC (boardSetRC gs.board p.row.toNat p.col.toNat none) m.toPos.row.toNat m.toPos.col.toNat (some { piece with hasMoved := true }) } piece.color =
          findKingPosition gs piece.color := by
        apply findKingPosition_congr_cells
        intro r k
        by_cases hP : r = p.row.toNat ∧ k = p.col.toNat
        · obtain ⟨rfl, rfl⟩ := hP
          right
          constructor
          · intro xp hxp
            rw [boardGetRC_boardSetRC_ne _ _ _ _ _ _ (Or.inl hTPr),
              boardGetRC_boardSetRC_self _ _ _ _ hbP.1 hbP.2] at hxp
            simp at hxp
          · intro xp hxp
            rw [← getPieceAt_valid _ _ hv, hpp] at hxp
            injection hxp with hxp2
            intro hk
            rw [← hxp2, htype] at hk
            simp at hk
        · by_cases hT2 : r = m.toPos.row.toNat ∧ k = m.toPos.col.toNat
          · obtain ⟨rfl, rfl⟩ := hT2
            right
            constructor
            · intro xp hxp
              rw [boardGetRC_boardSetRC_self _ _ _ _ hbT1.1 hbT1.2] at hxp
              injection hxp with hxp2
              intro hk
              rw [← hxp2] at hk
              rw [show ({ piece with hasMoved := true } : Piece).type = piece.type
                from rfl, htype] at hk
              simp at hk
            · intro xp hxp
              rw [← getPieceAt_valid _ _ htv, hep2] at hxp
              simp at hxp
          · left
            rw [boardGetRC_boardSetRC_ne _ _ _ _ _ _
                ((ne_pair hT2).imp Ne.symm Ne.symm),
              boardGetRC_boardSetRC_ne _ _ _ _ _ _
                ((ne_pair hP).imp Ne.symm Ne.symm)]
      rw [hS]
      rw [hMb] at hfil
      exact isPlayerInCheck_transfer _ _ gs piece.color lm.toPos.row.toNat
        lm.toPos.col.toNat hfkM hfkO hSM hSq hqpawn2 hMq hchk hfil
    · -- the en-passant destination is off the board: no piece is placed
      have hS : stalemateSimBoard gs.board p piece m = boardSetRC gs.board p.row.toNat p.col.toNat none := by
        simp only [stalemateSimBoard, cloneBoard]
        rw [clearPosition_valid _ _ hv, placePiece_invalid _ _ _ htv]
      have hb2 : getPieceAt m.toPos (clearPosition gs.board p) = none :=
        getPieceAt_invalid _ _ htv
      have hMb : simulateMoveBoard gs.board p piece m = boardSetRC (boardSetRC gs.board p.row.toNat p.col.toNat none) lm.toPos.row.toNat lm.toPos.col.toNat none := by
        simp only [simulateMoveBoard, cloneBoard, hb2, hsp, reduceIte, hcpp]
        rw [clearPosition_valid _ _ hv, clearPosition_valid _ _ hqv,
          placePiece_invalid _ _ _ htv]
      have hSM : ∀ r k : Nat, ¬(r = lm.toPos.row.toNat ∧ k = lm.toPos.col.toNat) →
          boardGetRC (boardSetRC gs.board p.row.toNat p.col.toNat none) r k = boardGetRC (boardSetRC (boardSetRC gs.board p.row.toNat p.col.toNat none) lm.toPos.row.toNat lm.toPos.col.toNat none) r k := by
        intro r k hrk
        rw [boardGetRC_boardSetRC_ne _ _ _ _ _ _
          ((ne_pair hrk).imp Ne.symm Ne.symm)]
      have hSq : boardGetRC (boardSetRC gs.board p.row.toNat p.col.toNat none) lm.toPos.row.toNat lm.toPos.col.toNat =
          boardGetRC gs.board lm.toPos.row.toNat lm.toPos.col.toNat := by
        rw [boardGetRC_boardSetRC_ne _ _ _ _ _ _ (Or.inr (Ne.symm hQPc))]
      have hMq : boardGetRC (boardSetRC (boardSetRC gs.board p.row.toNat p.col.toNat none) lm.toPos.row.toNat lm.toPos.col.toNat none) lm.toPos.row.toNat lm.toPos.col.toNat = none := by
        rw [boardGetRC_boardSetRC_self _ _ _ _ hbQ1.1 hbQ1.2]
      have hfkM : findKingPosition { gs with board := boardSetRC gs.board p.row.toNat p.col.toNat none } piece.color =
          findKingPosition { gs with board := boardSetRC (boardSetRC gs.board p.row.toNat p.col.toNat none) lm.toPos.row.toNat lm.toPos.col.toNat none } piece.color := by
        apply findKingPosition_congr_cells
        intro r k
        by_cases hQ : r = lm.toPos.row.toNat ∧ k = lm.toPos.col.toNat
        · obtain ⟨rfl, rfl⟩ := hQ
          right
          constructor
          · intro xp hxp
            rw [hSq] at hxp
            intro hk
            rw [hqpawn2 xp hxp] at hk
            simp at hk
          · intro xp hxp
            rw [hMq] at hxp
            simp at hxp
        · left
          exact hSM r k hQ
      have hfkO : findKingPosition { gs with board := boardSetRC gs.board p.row.toNat p.col.toNat none } piece.color =
          findKingPosition gs piece.color := by
        apply findKingPosition_congr_cells
        intro r k
        by_cases hP : r = p.row.toNat ∧ k = p.col.toNat
        · obtain ⟨rfl, rfl⟩ := hP
          right
          constructor
          · intro xp hxp
            rw [boardGetRC_boardSetRC_self _ _ _ _ hbP.1 hbP.2] at hxp
            simp at hxp
          · intro xp hxp
            rw [← getPieceAt_valid _ _ hv, hpp] at hxp
            injection hxp with hxp2
            intro hk
            rw [← hxp2, htype] at hk
            simp at hk
        · left
          rw [boardGetRC_boardSetRC_ne _ _ _ _ _ _
            ((ne_pair hP).imp Ne.symm Ne.symm)]
      rw [hS]
      rw [hMb] at hfil
      exact isPlayerInCheck_transfer _ _ gs piece.color lm.toPos.row.toNat
        lm.toPos.col.toNat hfkM hfkO hSM hSq hqpawn2 hMq hchk hfil
  · -- the captured square is off the board: both simulations are no-ops beyond
    -- clearing the source square
    have hqv2 : ¬(0 ≤ lm.toPos.col ∧ lm.toPos.col < 8 ∧ 0 ≤ lm.toPos.row ∧
        lm.toPos.row < 8) := by
      intro hcon
      exact hqv (by simp [isValidPosition]; omega)
    have htv_bad : ¬isValidPosition m.toPos = true := by
      intro hcon
      have hcon2 : 0 ≤ m.toPos.col ∧ m.toPos.col < 8 ∧ 0 ≤ m.toPos.row ∧
          m.toPos.row < 8 := by simpa [isValidPosition, and_assoc] using hcon
      rw [htcol] at hcon2
      apply hqv2
      refine ⟨hcon2.1, hcon2.2.1, ?_, ?_⟩ <;> omega
    have hS : stalemateSimBoard gs.board p piece m = clearPosition gs.board p := by
      simp only [stalemateSimBoard, cloneBoard]
      rw [placePiece_invalid _ _ _ htv_bad]
    have hb2 : getPieceAt m.toPos (clearPosition gs.board p) = none :=
      getPieceAt_invalid _ _ htv_bad
    have hMb : simulateMoveBoard gs.board p piece m = clearPosition gs.board p := by
      simp only [simulateMoveBoard, cloneBoard, hb2, hsp, reduceIte, hcpp]
      rw [clearPosition_invalid _ _ hqv, placePiece_invalid _ _ _ htv_bad]
    rw [hS, ← hMb]
    exact hfil

theorem stalemate_resim (gs : GameState) (c : Color) (p : Position) (m : Move)
    (hc : c = gs.currentTurn)
    (hwf : wellFormedBoard gs.board = true)
    (hep : enPassantConsistent gs = true)
    (hchk : isPlayerInCheck gs c = false)
    (hm : m ∈ getLegalMoves p gs) :
    (match getPieceAt p (cloneBoard gs.board) with
     | none => false
     | some piece =>
       !isPlayerInCheck
         { gs with board := stalemateSimBoard gs.board p piece m, currentTurn := c }
         c) = true := by
  obtain ⟨piece, hv, hpp, hcol, hpot, hfil⟩ := mem_getLegalMoves_elim hm
  have hclone : getPieceAt p (cloneBoard gs.board) = some piece := hpp
  rw [hclone]
  have hcc : piece.color = c := by rw [hcol, hc]
  rw [hcc] at hfil
  have hgoal : isPlayerInCheck
      { gs with board := stalemateSimBoard gs.board p piece m, currentTurn := c } c
      = false := by
    rw [isPlayerInCheck_turn]
    by_cases hspc : m.special = some SpecialMove.enPassant
    · have := stalemate_resim_ep gs p piece m hwf hep (by rw [hcc]; exact hchk)
        hv hpp hpot (by rw [hcc]; exact hfil) hspc
      rw [hcc] at this
      exact this
    · rw [← simulateMoveBoard_eq_of_not_ep _ _ _ _ hspc]
      exact hfil
  show (!isPlayerInCheck
    { gs with board := stalemateSimBoard gs.board p piece m, currentTurn := c }
    c) = true
  rw [hgoal]
  rfl

/-- C4 (amended): in the corrected concrete scenario - black king h8 alone,
white queen f7, white rook a6 (where the repository test places it), black to
move - `isPlayerInCheck` is `false` and `isStalemate` is `true`; and for every
game state whose board is a well-formed 8x8 array and whose last history entry
is consistent with the board (as holds in every position reached by play),
`isStalemate(s, c)` for the side to move equals the reference definition: not
in check and no position holding a piece of color `c` has any move in
`getLegalMoves`.  (Universally the equality can fail: the stalemate
re-simulation omits the en-passant capture removal, so a
board/history-inconsistent state can disagree; and the claim's literal
scenario places the rook where it gives check - see the counterexample.) -/
theorem isStalemate_matches_spec (gameState : GameState) (c : Color)
    (hc : c = gameState.currentTurn)
    (hwf : wellFormedBoard gameState.board = true)
    (hep : enPassantConsistent gameState = true) :
    (isPlayerInCheck testStalemateA6 Color.black = false ∧
     isStalemate testStalemateA6 Color.black = true) ∧
    isStalemate gameState c =
      (!isPlayerInCheck gameState c && noLegalMoveForColor gameState c) := by
  refine ⟨⟨by decide, by decide⟩, ?_⟩
  by_cases hchk : isPlayerInCheck gameState c = true
  · unfold isStalemate
    rw [if_pos hchk, hchk]
    simp
  · have hchk2 : isPlayerInCheck gameState c = false := by
      cases h : isPlayerInCheck gameState c
      · rfl
      · exact absurd h hchk
    unfold isStalemate
    rw [if_neg hchk, hchk2]
    simp only [Bool.not_false, Bool.true_and]
    unfold getActivePieces noLegalMoveForColor
    rw [List.any_filter]
    have hpoint : ∀ q ∈ allSquares,
        ((match boardGetRC gameState.board q.row.toNat q.col.toNat with
          | some piece => piece.color == c
          | none => false) &&
         (getLegalMoves q gameState).any fun move =>
           match getPieceAt q (cloneBoard gameState.board) with
           | none => false
           | some piece =>
             !isPlayerInCheck
               { gameState with
                 board := stalemateSimBoard gameState.board q piece move,
                 currentTurn := c }
               c)
        = !(match boardGetRC gameState.board q.row.toNat q.col.toNat with
            | some piece => !(piece.color == c) || (getLegalMoves q gameState).isEmpty
            | none => true) := by
      intro q _
      cases hcell : boardGetRC gameState.board q.row.toNat q.col.toNat with
      | none => simp
      | some piece =>
        cases hcolq : piece.color == c with
        | false => simp [hcolq]
        | true =>
          simp only [Bool.false_or, Bool.true_and, Bool.not_true, Bool.false_and,
            Bool.not_false]
          cases hleg : getLegalMoves q gameState with
          | nil => simp
          | cons m rest =>
            have hres := stalemate_resim gameState c q m hc hwf hep hchk2
              (by rw [hleg]; exact List.mem_cons_self m rest)
            simp only [List.any_cons, hres, Bool.true_or, List.isEmpty_cons,
              Bool.not_false]
            simp [hcolq]
    rw [list_any_congr _ _ _ hpoint, ← List.not_all_eq_any_not, Bool.not_not]

/-- C4 counterexample: in the claim's literal scenario (black king h8, white
queen f7, white rook a8, black to move) the rook attacks the king along the
eighth rank, so `isPlayerInCheck` is `true` (the claim says `false`) and
`isStalemate` is `false`; and on a board/history-inconsistent en-passant state
the unrestricted iff itself fails: `cexStale` is not in check, has a legal
move, yet `isStalemate` returns `true`. -/
theorem isStalemate_claim_counterexample :
    (isPlayerInCheck claimStalemateA8 Color.black = true ∧
     isStalemate claimStalemateA8 Color.black = false) ∧
    (isPlayerInCheck cexStale Color.white = false ∧
     isStalemate cexStale Color.white = true ∧
     enPassantConsistent cexStale = false ∧
     noLegalMoveForColor cexStale Color.white = false) := by
  refine ⟨⟨?_, ?_⟩, ?_, ?_, ?_, ?_⟩ <;> decide

/-- Witness for C4 on the position the repository test actually builds
(rook on a6): hypotheses hold and the theorem applies. -/
theorem isStalemate_matches_spec_witness :
    (Color.black = testStalemateA6.currentTurn ∧
     wellFormedBoard testStalemateA6.board = true ∧
     enPassantConsistent testStalemateA6 = true) ∧
    ((isPlayerInCheck testStalemateA6 Color.black = false ∧
      isStalemate testStalemateA6 Color.black = true) ∧
     isStalemate testStalemateA6 Color.black =
       (!isPlayerInCheck testStalemateA6 Color.black &&
         noLegalMoveForColor testStalemateA6 Color.black)) :=
  ⟨⟨by decide, by decide, by decide⟩,
   isStalemate_matches_spec testStalemateA6 Color.black (by decide) (by decide)
     (by decide)⟩

end Chessboard
